import Mathlib

/-!
Verification of the PDF field-extraction pipeline (`app.py`).

Python strings are embedded as `List Char`; the external capabilities
(pdfplumber text extraction, PyMuPDF document IO, Streamlit UI) are not
modelled: every function below takes the data those capabilities produce
(the extracted text lines, the form template's widget tree) as input.
Python whitespace (`str.strip`, regex `\s`) is modelled by
`Char.isWhitespace`, and case-insensitivity (`re.IGNORECASE`,
`str.lower`) by `Char.toLower`; both agree with Python on the
ASCII/Latin-1 characters the configuration tables use.
-/

namespace PdfExtract

/-- A Python string: its sequence of characters. -/
abbrev Line := List Char

/-- Characters of a Lean string literal, used to transcribe Python literals. -/
def strA (s : String) : Line := s.data

/-- Python whitespace test (`str.strip`, regex `\s`). -/
def isPySpace (c : Char) : Bool := c.isWhitespace

/-- `str.lower()` / `re.IGNORECASE` folding, character-wise. -/
def lowerL (l : Line) : Line := l.map Char.toLower

/-- `str.lstrip()` on the left only. -/
def trimLeft (l : Line) : Line := l.dropWhile isPySpace

/-- `str.rstrip()` on the right only. -/
def trimRight (l : Line) : Line := (l.reverse.dropWhile isPySpace).reverse

/-- Python `str.strip()`: drop whitespace on both ends. -/
def pyStrip (l : Line) : Line := trimRight (trimLeft l)

/-- `l.startswith(p)` : is `p` a leading segment of `l`? -/
def startsWithB (p l : Line) : Bool :=
  match p, l with
  | [], _ => true
  | _ :: _, [] => false
  | a :: ps, b :: cs => if a = b then startsWithB ps cs else false

/-- Association-list lookup (models a Python `dict` with unique keys). -/
def lookupAssoc {β : Type} (m : List (Line × β)) (k : Line) : Option β :=
  match m with
  | [] => none
  | (k', v) :: rest => if k' = k then some v else lookupAssoc rest k

/-- `d.get(k, default)` on a Python dict. -/
def dictGetD {β : Type} (m : List (Line × β)) (k : Line) (dflt : β) : β :=
  (lookupAssoc m k).getD dflt

-- -----------------------------
-- 1) EXTRACTION CONFIG (app.py lines 15-45)
-- -----------------------------

/-- The fixed ordered header list `HEADERS`. -/
def HEADERS : List Line :=
  [strA "Stellvertreter",
   strA "Anschlussnehmer",
   strA "Anschlussort",
   strA "Angaben zur Kundenanlage",
   strA "Angaben zu den PV-Modulen",
   strA "Angaben zur Speichereinheit"]

/-- The fixed per-header label table `TARGETS`. -/
def TARGETS : List (Line × List Line) :=
  [(strA "Stellvertreter", [strA "Firma", strA "Erreichbarkeit E-Mail"]),
   (strA "Anschlussnehmer", [strA "Anschrift", strA "Erreichbarkeit Telefon"]),
   (strA "Anschlussort", [strA "Straße"]),
   (strA "Angaben zur Kundenanlage", [strA "Mess- und Betriebskonzept"]),
   (strA "Angaben zu den PV-Modulen", [strA "Gesamtleistung aller PV-Module in kWp"]),
   (strA "Angaben zur Speichereinheit", [strA "Bruttokapazität des Speichereinheit"])]

-- -----------------------------
-- split_lines / find_header_indices / get_section_slice (app.py lines 60-84)
-- -----------------------------

/-- `split_lines`: split the extracted text on newlines and strip each line. -/
def split_lines (text : Line) : List Line :=
  (text.splitOn '\n').map pyStrip

/-- Accumulator loop of `find_header_indices`: `enumerate(lines)` with the
`ln in headers and ln not in idx_map` guard; insertion order preserved. -/
def fhiGo (headers : List Line) : List Line → Nat → List (Line × Nat) → List (Line × Nat)
  | [], _, acc => acc
  | ln :: rest, i, acc =>
      if ln ∈ headers ∧ lookupAssoc acc ln = none then
        fhiGo headers rest (i + 1) (acc ++ [(ln, i)])
      else
        fhiGo headers rest (i + 1) acc

/-- `find_header_indices`: first-occurrence line index of each known header. -/
def find_header_indices (lines headers : List Line) : List (Line × Nat) :=
  fhiGo headers lines 0 []

/-- Python `<` on strings: lexicographic by character code. -/
def listLtB : Line → Line → Bool
  | [], [] => false
  | [], _ :: _ => true
  | _ :: _, [] => false
  | a :: as_, b :: bs => if a < b then true else if b < a then false else listLtB as_ bs

/-- Python `<=` on `(title, index)` pairs: lexicographic tuple order. -/
def pairLe (p q : Line × Nat) : Bool :=
  listLtB p.1 q.1 || (decide (p.1 = q.1) && decide (p.2 ≤ q.2))

/-- Insert into a `pairLe`-sorted list (one step of `sorted(...)`). -/
def insertPair (p : Line × Nat) : List (Line × Nat) → List (Line × Nat)
  | [] => [p]
  | q :: qs => if pairLe p q then p :: q :: qs else q :: insertPair p qs

/-- `sorted((h, idx) for h, idx in header_indices.items())`. -/
def sortPairs : List (Line × Nat) → List (Line × Nat)
  | [] => []
  | p :: ps => insertPair p (sortPairs ps)

/-- `get_section_slice`: sentinel `(-1, -1)` for an absent header, else the
half-open range starting after the header line and ending at the index of
the first title-sorted known header whose index exceeds the header's own
index (the `for ... break` loop), or at the document length. -/
def get_section_slice (lines : List Line) (header : Line)
    (header_indices : List (Line × Nat)) : Int × Int :=
  match lookupAssoc header_indices header with
  | none => (-1, -1)
  | some current_idx =>
      let start : Int := (current_idx : Int) + 1
      let stop : Int :=
        match (sortPairs header_indices).find? (fun p => decide (current_idx < p.2)) with
        | some p => (p.2 : Int)
        | none => (lines.length : Int)
      (start, stop)

-- -----------------------------
-- extract_value_after_colon (app.py lines 87-93)
-- -----------------------------

/-- Consume the literal label at the start of the line case-insensitively
(the `re.escape(label)` part of the pattern under `re.IGNORECASE`),
returning the rest of the line. -/
def dropCILabel : Line → Line → Option Line
  | [], rest => some rest
  | _ :: _, [] => none
  | lc :: ls, c :: cs => if lc.toLower = c.toLower then dropCILabel ls cs else none

/-- The `\s*:\s*(.+?)\s*$` part of the pattern, applied to what follows
the label: the greedy `\s*` followed by `:` forces the colon to sit right
after the maximal whitespace run; `\s*(.+?)\s*$` succeeds exactly when
the remainder `s` after the colon is non-empty, and `group(1).strip()`
then equals `s` stripped (the lazy group keeps the interior and drops the
two whitespace margins; when `s` is all whitespace the group is a single
whitespace character and stripping it yields the empty string). -/
def colonSplit (rest : Line) : Option Line :=
  match rest.dropWhile isPySpace with
  | [] => none
  | c :: s => if c = ':' then (if s = [] then none else some (pyStrip s)) else none

/-- `re.match(rf"^{re.escape(label)}\s*:\s*(.+?)\s*$", ln, re.IGNORECASE)`
followed by `m.group(1).strip()`: the literal case-insensitive label,
then `colonSplit` on the rest of the line. -/
def lineValueMatch (label ln : Line) : Option Line :=
  match dropCILabel label ln with
  | none => none
  | some rest => colonSplit rest

/-- `extract_value_after_colon`: first matching line wins, else `None`. -/
def extract_value_after_colon (section_lines : List Line) (label : Line) : Option Line :=
  match section_lines with
  | [] => none
  | ln :: rest =>
      match lineValueMatch label ln with
      | some v => some v
      | none => extract_value_after_colon rest label

-- -----------------------------
-- extract_first_person_name (app.py lines 96-113)
-- -----------------------------

/-- Python `\w` (word character) test, for the `\b` boundary; ASCII model. -/
def isWordChar (c : Char) : Bool := c.isAlphanum || c = '_'

/-- Does the honorific prefix `p` start the line with a `\b` boundary after it? -/
def honorificAt (p ln : Line) : Bool :=
  startsWithB p ln &&
    match ln.drop p.length with
    | [] => true
    | c :: _ => !isWordChar c

/-- `re.match(r"^(Herr|Frau)\b", ln)` as a Boolean. -/
def matchesHonorific (ln : Line) : Bool :=
  honorificAt (strA "Herr") ln || honorificAt (strA "Frau") ln

/-- `extract_first_person_name`: skip blank lines, lines containing a colon
and known header lines; the first remaining line is returned stripped
(both the honorific branch and the fallback branch return it). -/
def extract_first_person_name : List Line → Option Line
  | [] => none
  | ln :: rest =>
      if ln = [] then extract_first_person_name rest
      else if ':' ∈ ln then extract_first_person_name rest
      else if ln ∈ HEADERS then extract_first_person_name rest
      else if matchesHonorific ln then some (pyStrip ln)
      else some (pyStrip ln)

/-- The skip conditions of `extract_first_person_name`, as one predicate:
a line qualifies when it is non-blank, contains no colon and is not a
known header. -/
def qualifiesB (ln : Line) : Bool :=
  !(decide (ln = []) || decide (':' ∈ ln) || decide (ln ∈ HEADERS))

-- -----------------------------
-- extract_requested_fields (app.py lines 116-149)
-- -----------------------------

/-- The `lines[start:end]` slice of a section, or `None` when
`get_section_slice` returned the `(-1, -1)` sentinel (`if start == -1:
continue`). -/
def sectionLinesOpt (lines : List Line) (header : Line) : Option (List Line) :=
  match get_section_slice lines header (find_header_indices lines HEADERS) with
  | (start, stop) =>
      if start = -1 then none
      else some ((lines.drop start.toNat).take (stop.toNat - start.toNat))

/-- The `section_out` list built for one header from its section lines:
the special `Anschlussnehmer` name line (appended only when the name is
truthy, `if name:`), then one `f"{label}: {val}"` line per target label
found (`if val is not None`). -/
def buildSectionOut (header : Line) (section_lines : List Line) : List Line :=
  (if header = strA "Anschlussnehmer" then
      match extract_first_person_name section_lines with
      | some n => if n = [] then [] else [strA "Name: " ++ n]
      | none => []
    else []) ++
  (dictGetD TARGETS header []).foldr
    (fun label acc =>
      (match extract_value_after_colon section_lines label with
       | some v => [label ++ strA ": " ++ v]
       | none => []) ++ acc) []

/-- The `for header in HEADERS` loop of `extract_requested_fields`:
a section contributes an entry only when found and non-empty. -/
def extractRFGo (lines : List Line) : List Line → List (Line × List Line)
  | [] => []
  | h :: hs =>
      match sectionLinesOpt lines h with
      | none => extractRFGo lines hs
      | some sl =>
          let so := buildSectionOut h sl
          if so = [] then extractRFGo lines hs else (h, so) :: extractRFGo lines hs

/-- `extract_requested_fields`, from the line sequence the external text
extraction and `split_lines` produce (the `pdfplumber` call itself is an
external capability). -/
def extract_requested_fields (lines : List Line) : List (Line × List Line) :=
  extractRFGo lines HEADERS

-- -----------------------------
-- format_as_txt (app.py lines 152-161)
-- -----------------------------

/-- The `for header in HEADERS` loop of `format_as_txt`, building `parts`:
header line, one `"- "`-bulleted line per field, then one blank line. -/
def formatPartsGo (results : List (Line × List Line)) : List Line → List Line
  | [] => []
  | h :: hs =>
      match lookupAssoc results h with
      | none => formatPartsGo results hs
      | some fields => h :: (fields.map (fun f => strA "- " ++ f)) ++ [[]] ++ formatPartsGo results hs

/-- `format_as_txt`: `"\n".join(parts).strip() + "\n"`. -/
def format_as_txt (results : List (Line × List Line)) : Line :=
  pyStrip (List.intercalate ['\n'] (formatPartsGo results HEADERS)) ++ ['\n']

-- -----------------------------
-- _get_value / build_extracted_dict (app.py lines 164-188)
-- -----------------------------

/-- `str.lstrip("- ")`: drop leading characters drawn from `{'-', ' '}`. -/
def lstripDashSpace (l : Line) : Line := l.dropWhile (fun c => c = '-' || c = ' ')

/-- `ln.split(":", 1)[1]`: everything after the first colon.  The callers
below only reach it on lines that contain a colon; on a colon-free line
Python would raise `IndexError`, modelled as the empty remainder. -/
def afterFirstColon : Line → Line
  | [] => []
  | c :: rest => if c = ':' then rest else afterFirstColon rest

/-- The per-line test of `_get_value`:
`ln.lstrip("- ").strip().lower().startswith(label.lower() + ":")`. -/
def getValueHit (label ln : Line) : Bool :=
  startsWithB (lowerL label ++ [':']) (lowerL (pyStrip (lstripDashSpace ln)))

/-- The scanning loop of `_get_value`: first hit returns
`ln.split(":", 1)[1].strip()`, otherwise the empty default. -/
def getValueGo (label : Line) : List Line → Line
  | [] => []
  | ln :: rest =>
      if getValueHit label ln then pyStrip (afterFirstColon (pyStrip (lstripDashSpace ln)))
      else getValueGo label rest

/-- `_get_value(results_by_section, section, label)`. -/
def get_value (results_by_section : List (Line × List Line)) (section_ label : Line) : Line :=
  getValueGo label (dictGetD results_by_section section_ [])

/-- The `name_line` loop of `build_extracted_dict`: first
`Anschlussnehmer` line whose normalized form starts with `"name:"`. -/
def nameScan : List Line → Line
  | [] => []
  | ln :: rest =>
      if startsWithB (strA "name:") (lowerL (pyStrip (lstripDashSpace ln))) then
        pyStrip (afterFirstColon (pyStrip (lstripDashSpace ln)))
      else nameScan rest

/-- `build_extracted_dict`: the seven canonical keys, re-parsed from the
extraction result's own formatted lines. -/
def build_extracted_dict (results_by_section : List (Line × List Line)) : List (Line × Line) :=
  [(strA "name", nameScan (dictGetD results_by_section (strA "Anschlussnehmer") [])),
   (strA "anschrift", get_value results_by_section (strA "Anschlussnehmer") (strA "Anschrift")),
   (strA "telefon", get_value results_by_section (strA "Anschlussnehmer") (strA "Erreichbarkeit Telefon")),
   (strA "anschlussort_strasse", get_value results_by_section (strA "Anschlussort") (strA "Straße")),
   (strA "messkonzept", get_value results_by_section (strA "Angaben zur Kundenanlage") (strA "Mess- und Betriebskonzept")),
   (strA "pv_kwp", get_value results_by_section (strA "Angaben zu den PV-Modulen") (strA "Gesamtleistung aller PV-Module in kWp")),
   (strA "speicher_kwh", get_value results_by_section (strA "Angaben zur Speichereinheit") (strA "Bruttokapazität des Speichereinheit"))]

-- -----------------------------
-- 2) FILL FILLABLE PDF (app.py lines 194-259)
-- -----------------------------

/-- A form widget of the template: its name, current value, and the
template-defined checkbox "on" state returned by `w.on_state()`. -/
structure Widget where
  fieldName : Line
  fieldValue : Line
  onState : Line
deriving DecidableEq, Repr

/-- The template document as PyMuPDF exposes it: pages in order, each a
list of widgets in order (`for page in doc: page.widgets()`). -/
abbrev Doc := List (List Widget)

/-- Scan one page for the first widget with the given name and set its
value from its old state; `none` when the page has no such widget. -/
def updateInPage (name : Line) (g : Widget → Line) : List Widget → Option (List Widget)
  | [] => none
  | w :: ws =>
      if w.fieldName = name then some ({ w with fieldValue := g w } :: ws)
      else (updateInPage name g ws).map (w :: ·)

/-- The shared page scan of `_set_text_field` and `_set_checkbox`: update
the first widget with the given name (then `return`); when no widget
matches, the document is returned unchanged. -/
def updateFirstWidget (name : Line) (g : Widget → Line) : Doc → Doc
  | [] => []
  | pg :: rest =>
      match updateInPage name g pg with
      | some pg2 => pg2 :: rest
      | none => pg :: updateFirstWidget name g rest

/-- `_set_text_field`: `w.field_value = value or ""` (for a string value
`value or ""` is `value` itself, since an empty `value` yields `""`). -/
def set_text_field (doc : Doc) (field_name value : Line) : Doc :=
  updateFirstWidget field_name (fun _ => value) doc

/-- `_set_checkbox`: `w.field_value = w.on_state() if checked else "Off"`. -/
def set_checkbox (doc : Doc) (field_name : Line) (checked : Bool) : Doc :=
  updateFirstWidget field_name (fun w => if checked then w.onState else strA "Off") doc

/-- First widget with the given name, scanning a page. -/
def findWidgetInPage (name : Line) : List Widget → Option Widget
  | [] => none
  | w :: ws => if w.fieldName = name then some w else findWidgetInPage name ws

/-- First widget with the given name, scanning pages in order. -/
def findFirstWidget (doc : Doc) (name : Line) : Option Widget :=
  match doc with
  | [] => none
  | pg :: rest =>
      match findWidgetInPage name pg with
      | some w => some w
      | none => findFirstWidget rest name

/-- `fill_template_pdf`'s field assignments, in program order.  The
surrounding `fitz.open` / `tobytes` serialization is external; the
current date string (`datetime.now(ZoneInfo("Europe/Berlin"))` formatted
`DD.MM.YYYY`) is passed in as `today`. -/
def fill_template_pdf (doc : Doc) (extracted : List (Line × Line)) (today : Line) : Doc :=
  let d1 := set_text_field doc (strA "Name Vorname") (dictGetD extracted (strA "name") [])
  let d2 := set_text_field d1 (strA "Straße  Nr  Ort") (dictGetD extracted (strA "anschrift") [])
  let d3 := set_text_field d2 (strA "Telefonnummer") (dictGetD extracted (strA "telefon") [])
  let d4 := set_text_field d3 (strA "2 Standort der Photovoltaikanlage")
      (dictGetD extracted (strA "anschlussort_strasse") [])
  let d5 := set_checkbox d4 (strA "Check 1") true
  let d6 := set_checkbox d5 (strA "Check 5") true
  let d7 := set_checkbox d6 (strA "Check 7") true
  let d8 := set_checkbox d7 (strA "Check 9") true
  let d9 := set_text_field d8 (strA "Bemerkung 5") today
  let d10 := set_text_field d9 (strA "Bemerkung 9") (dictGetD extracted (strA "messkonzept") [])
  let d11 := set_text_field d10 (strA "kWp") (dictGetD extracted (strA "pv_kwp") [])
  let speicher_kwh := pyStrip (dictGetD extracted (strA "speicher_kwh") [])
  let d12 := set_text_field d11 (strA "kWh") speicher_kwh
  set_checkbox d12 (strA "ja_2") (!speicher_kwh.isEmpty)

/-- The template field names `fill_template_pdf` writes to. -/
def mappedFieldNames : List Line :=
  [strA "Name Vorname", strA "Straße  Nr  Ort", strA "Telefonnummer",
   strA "2 Standort der Photovoltaikanlage",
   strA "Check 1", strA "Check 5", strA "Check 7", strA "Check 9",
   strA "Bemerkung 5", strA "Bemerkung 9", strA "kWp", strA "kWh", strA "ja_2"]

/-- No widget of the document carries the given field name. -/
def noWidgetNamed (doc : Doc) (name : Line) : Prop :=
  ∀ pg ∈ doc, ∀ w ∈ pg, w.fieldName ≠ name

-- -----------------------------
-- String-helper lemmas
-- -----------------------------

theorem sat_of_mem_takeWhile {α : Type} {p : α → Bool} :
    ∀ {l : List α} {a : α}, a ∈ l.takeWhile p → p a = true := by
  intro l
  induction l with
  | nil => intro a h; simp [List.takeWhile] at h
  | cons x t ih =>
      intro a h
      rw [List.takeWhile_cons] at h
      by_cases hx : p x = true
      · rw [if_pos hx] at h
        rcases List.mem_cons.mp h with h1 | h2
        · exact h1 ▸ hx
        · exact ih h2
      · rw [if_neg hx] at h; cases h

theorem head_not_sat_of_dropWhile {α : Type} {p : α → Bool} :
    ∀ {l : List α} {a : α} {t : List α}, l.dropWhile p = a :: t → p a = false := by
  intro l
  induction l with
  | nil => intro a t h; simp [List.dropWhile] at h
  | cons x xs ih =>
      intro a t h
      rw [List.dropWhile_cons] at h
      by_cases hx : p x = true
      · rw [if_pos hx] at h; exact ih h
      · rw [if_neg hx] at h
        cases h
        exact Bool.eq_false_iff.mpr hx

theorem dropWhile_idem {α : Type} (p : α → Bool) (l : List α) :
    (l.dropWhile p).dropWhile p = l.dropWhile p := by
  cases h : l.dropWhile p with
  | nil => rfl
  | cons a t =>
      have ha : p a = false := head_not_sat_of_dropWhile h
      rw [List.dropWhile_cons_of_neg (by simp [ha])]

theorem trimLeft_cons_of_not {c : Char} {t : Line} (h : isPySpace c = false) :
    trimLeft (c :: t) = c :: t := by
  rw [trimLeft, List.dropWhile_cons_of_neg (by simp [h])]

theorem trimLeft_trimLeft (l : Line) : trimLeft (trimLeft l) = trimLeft l :=
  dropWhile_idem isPySpace l

theorem trimRight_trimRight (l : Line) : trimRight (trimRight l) = trimRight l := by
  rw [trimRight, trimRight, List.reverse_reverse, dropWhile_idem]

theorem trimRight_eq_self_iff (v : Line) :
    trimRight v = v ↔ v.reverse.dropWhile isPySpace = v.reverse := by
  constructor
  · intro h
    have := congrArg List.reverse h
    rwa [trimRight, List.reverse_reverse] at this
  · intro h
    rw [trimRight, h, List.reverse_reverse]

theorem trimRight_append_of_stable (u : Line) {v : Line} (hv : trimRight v = v) (h0 : v ≠ []) :
    trimRight (u ++ v) = u ++ v := by
  have hv' : v.reverse.dropWhile isPySpace = v.reverse := (trimRight_eq_self_iff v).mp hv
  have hne : ¬ (v.reverse.dropWhile isPySpace).isEmpty = true := by
    rw [hv']
    simp [List.isEmpty_iff, h0]
  rw [trimRight, List.reverse_append, List.dropWhile_append, if_neg hne, hv',
    List.reverse_append, List.reverse_reverse, List.reverse_reverse]

theorem trimLeft_of_trimRight_of_stable {y : Line} (hy : trimLeft y = y) :
    trimLeft (trimRight y) = trimRight y := by
  cases y with
  | nil => rfl
  | cons c t =>
      have hc : isPySpace c = false := by
        by_cases h : isPySpace c = true
        · exfalso
          rw [trimLeft, List.dropWhile_cons_of_pos h] at hy
          have hlen := congrArg List.length hy
          have hle : (t.dropWhile isPySpace).length ≤ t.length :=
            (List.dropWhile_sublist isPySpace).length_le
          simp at hlen
          omega
        · exact Bool.eq_false_iff.mpr h
      rw [trimRight, List.reverse_cons, List.dropWhile_append]
      by_cases he : (t.reverse.dropWhile isPySpace).isEmpty = true
      · rw [if_pos he, List.dropWhile_cons_of_neg (by simp [hc])]
        simp only [List.reverse_cons, List.reverse_nil, List.nil_append]
        exact trimLeft_cons_of_not hc
      · rw [if_neg he, List.reverse_append]
        cases hd : t.reverse.dropWhile isPySpace with
        | nil => exact absurd (by rw [hd]; rfl) he
        | cons a s =>
            rw [show ([c].reverse ++ (a :: s).reverse) = c :: (a :: s).reverse by simp]
            exact trimLeft_cons_of_not hc

theorem trimLeft_pyStrip (l : Line) : trimLeft (pyStrip l) = pyStrip l :=
  trimLeft_of_trimRight_of_stable (trimLeft_trimLeft l)

theorem trimRight_pyStrip (l : Line) : trimRight (pyStrip l) = pyStrip l :=
  trimRight_trimRight (trimLeft l)

theorem pyStrip_pyStrip (l : Line) : pyStrip (pyStrip l) = pyStrip l := by
  rw [pyStrip, trimLeft_pyStrip, trimRight_pyStrip]

theorem pyStrip_cons_append {c : Char} {t v : Line} (hc : isPySpace c = false)
    (hv : trimRight v = v) (h0 : v ≠ []) :
    pyStrip (c :: t ++ v) = c :: t ++ v := by
  rw [pyStrip]
  rw [show (c :: t ++ v) = c :: (t ++ v) from rfl, trimLeft_cons_of_not hc]
  exact trimRight_append_of_stable (c :: t) hv h0

-- -----------------------------
-- Characterization of extract_value_after_colon (C3, C10)
-- -----------------------------

/-- Character-wise case-insensitive equality (two strings match under
`re.IGNORECASE` literal matching). -/
def ciEqL : Line → Line → Bool
  | [], [] => true
  | [], _ :: _ => false
  | _ :: _, [] => false
  | a :: as_, b :: bs => if a.toLower = b.toLower then ciEqL as_ bs else false

theorem dropCILabel_some_iff :
    ∀ (label l r : Line),
      dropCILabel label l = some r ↔ ∃ p, l = p ++ r ∧ ciEqL label p = true := by
  intro label
  induction label with
  | nil =>
      intro l r
      constructor
      · intro h
        cases h
        exact ⟨[], rfl, rfl⟩
      · rintro ⟨p, hl, hp⟩
        cases p with
        | nil => cases hl; rfl
        | cons a ps => simp [ciEqL] at hp
  | cons lc ls ih =>
      intro l r
      cases l with
      | nil =>
          constructor
          · intro h; simp [dropCILabel] at h
          · rintro ⟨p, hl, hp⟩
            cases p with
            | nil => simp [ciEqL] at hp
            | cons a ps => simp at hl
      | cons c cs =>
          by_cases hc : lc.toLower = c.toLower
          · rw [show dropCILabel (lc :: ls) (c :: cs) = dropCILabel ls cs by
              simp [dropCILabel, hc]]
            rw [ih cs r]
            constructor
            · rintro ⟨p, hcs, hp⟩
              exact ⟨c :: p, by simp [hcs], by simp [ciEqL, hc, hp]⟩
            · rintro ⟨p, hl, hp⟩
              cases p with
              | nil => simp [ciEqL] at hp
              | cons a ps =>
                  rw [List.cons_append] at hl
                  injection hl with h1 h2
                  subst h1
                  refine ⟨ps, h2, ?_⟩
                  simpa [ciEqL, hc] using hp
          · rw [show dropCILabel (lc :: ls) (c :: cs) = none by simp [dropCILabel, hc]]
            constructor
            · intro h; cases h
            · rintro ⟨p, hl, hp⟩
              cases p with
              | nil => simp [ciEqL] at hp
              | cons a ps =>
                  rw [List.cons_append] at hl
                  injection hl with h1 _
                  subst h1
                  simp [ciEqL, hc] at hp

theorem dropWhile_space_colon_iff (rest s : Line) :
    rest.dropWhile isPySpace = ':' :: s ↔
      ∃ w, rest = w ++ ':' :: s ∧ ∀ c ∈ w, isPySpace c = true := by
  constructor
  · intro h
    refine ⟨rest.takeWhile isPySpace, ?_, fun c hc => sat_of_mem_takeWhile hc⟩
    rw [← h]
    exact (List.takeWhile_append_dropWhile isPySpace rest).symm
  · rintro ⟨w, hw, hall⟩
    rw [hw, List.dropWhile_append_of_pos hall,
      List.dropWhile_cons_of_neg (by simp [isPySpace])]

theorem colonSplit_some_iff (rest v : Line) :
    colonSplit rest = some v ↔
      ∃ w s, rest = w ++ ':' :: s ∧ (∀ c ∈ w, isPySpace c = true) ∧
        s ≠ [] ∧ v = pyStrip s := by
  constructor
  · intro h
    cases hd : rest.dropWhile isPySpace with
    | nil => rw [colonSplit, hd] at h; cases h
    | cons c cs =>
        simp only [colonSplit, hd] at h
        by_cases hc : c = ':'
        · subst hc
          rw [if_pos rfl] at h
          by_cases hcs : cs = []
          · rw [if_pos hcs] at h; cases h
          · rw [if_neg hcs] at h
            injection h with hv
            obtain ⟨w, hw, hwall⟩ := (dropWhile_space_colon_iff rest cs).mp hd
            exact ⟨w, cs, hw, hwall, hcs, hv.symm⟩
        · rw [if_neg hc] at h; cases h
  · rintro ⟨w, s, hw, hwall, hs, hv⟩
    simp only [colonSplit, (dropWhile_space_colon_iff rest s).mpr ⟨w, hw, hwall⟩]
    simp [hs, hv]

theorem lineValueMatch_some_iff (label ln v : Line) :
    lineValueMatch label ln = some v ↔
      ∃ p w s, ln = p ++ (w ++ ':' :: s) ∧ ciEqL label p = true ∧
        (∀ c ∈ w, isPySpace c = true) ∧ s ≠ [] ∧ v = pyStrip s := by
  cases hdrop : dropCILabel label ln with
  | none =>
      rw [lineValueMatch, hdrop]
      constructor
      · intro h; cases h
      · rintro ⟨p, w, s, hl, hp, hw, hs, hv⟩
        have : dropCILabel label ln = some (w ++ ':' :: s) :=
          (dropCILabel_some_iff label ln (w ++ ':' :: s)).mpr ⟨p, hl, hp⟩
        rw [hdrop] at this
        cases this
  | some rest =>
      rw [lineValueMatch, hdrop]
      have hrest : ∃ p, ln = p ++ rest ∧ ciEqL label p = true :=
        (dropCILabel_some_iff label ln rest).mp hdrop
      rw [colonSplit_some_iff]
      constructor
      · rintro ⟨w, s, hw, hwall, hs, hv⟩
        obtain ⟨p, hln, hp⟩ := hrest
        exact ⟨p, w, s, by rw [hln, hw], hp, hwall, hs, hv⟩
      · rintro ⟨p, w, s, hl, hp, hw, hs, hv⟩
        have hsome : dropCILabel label ln = some (w ++ ':' :: s) :=
          (dropCILabel_some_iff label ln (w ++ ':' :: s)).mpr ⟨p, hl, hp⟩
        rw [hdrop] at hsome
        injection hsome with hr
        subst hr
        exact ⟨w, s, rfl, hw, hs, hv⟩

theorem evac_eq_none_iff (section_lines : List Line) (label : Line) :
    extract_value_after_colon section_lines label = none ↔
      ∀ ln ∈ section_lines, lineValueMatch label ln = none := by
  induction section_lines with
  | nil => simp [extract_value_after_colon]
  | cons ln rest ih =>
      rw [extract_value_after_colon]
      cases h : lineValueMatch label ln with
      | some v =>
          simp only [List.mem_cons]
          constructor
          · intro hfalse; cases hfalse
          · intro hall
            have := hall ln (Or.inl rfl)
            rw [h] at this
            cases this
      | none =>
        rw [ih]
        constructor
        · intro hall ln' hln'
          rcases List.mem_cons.mp hln' with h1 | h2
          · rw [h1]; exact h
          · exact hall ln' h2
        · intro hall ln' hln'
          exact hall ln' (List.mem_cons_of_mem _ hln')

theorem evac_cons_of_some {label ln v : Line} (rest : List Line)
    (h : lineValueMatch label ln = some v) :
    extract_value_after_colon (ln :: rest) label = some v := by
  rw [extract_value_after_colon, h]

theorem evac_cons_of_none {label ln : Line} (rest : List Line)
    (h : lineValueMatch label ln = none) :
    extract_value_after_colon (ln :: rest) label = extract_value_after_colon rest label := by
  rw [extract_value_after_colon, h]

/-- C3: `extract_value_after_colon` matches the label case-insensitively
and as a literal string: a line yields a value exactly when it decomposes
into the label (character-wise case-insensitively), an optional
whitespace run, a colon and a non-empty remainder, and the returned value
is that remainder trimmed of surrounding whitespace; the first matching
line wins; the result is `None` (value absent, not an error) exactly when
no line matches; and concretely `"firma:  Acme GmbH  "` extracted for
label `"Firma"` yields `"Acme GmbH"`. -/
theorem claim_C3_extract_value_after_colon :
    (∀ (section_lines : List Line) (label : Line),
        extract_value_after_colon section_lines label = none ↔
          ∀ ln ∈ section_lines, lineValueMatch label ln = none) ∧
    (∀ (label ln v : Line),
        lineValueMatch label ln = some v ↔
          ∃ p w s, ln = p ++ (w ++ ':' :: s) ∧ ciEqL label p = true ∧
            (∀ c ∈ w, isPySpace c = true) ∧ s ≠ [] ∧ v = pyStrip s) ∧
    (∀ (label ln v : Line) (rest : List Line),
        lineValueMatch label ln = some v →
          extract_value_after_colon (ln :: rest) label = some v) ∧
    (∀ (label ln : Line) (rest : List Line),
        lineValueMatch label ln = none →
          extract_value_after_colon (ln :: rest) label =
            extract_value_after_colon rest label) ∧
    extract_value_after_colon [strA "firma:  Acme GmbH  "] (strA "Firma") =
      some (strA "Acme GmbH") :=
  ⟨evac_eq_none_iff,
   fun label ln v => lineValueMatch_some_iff label ln v,
   fun _ _ _ rest h => evac_cons_of_some rest h,
   fun _ _ rest h => evac_cons_of_none rest h,
   by decide⟩

/-- C3 witness: the characterization applied at the concrete line
`"firma:  Acme GmbH  "` and label `"Firma"`. -/
theorem claim_C3_witness :
    lineValueMatch (strA "Firma") (strA "firma:  Acme GmbH  ") = some (strA "Acme GmbH") :=
  (claim_C3_extract_value_after_colon.2.1 (strA "Firma") (strA "firma:  Acme GmbH  ")
      (strA "Acme GmbH")).mpr
    ⟨strA "firma", [], strA "  Acme GmbH  ", by decide, by decide, by decide, by decide,
      by decide⟩

/-- C10: on a line consisting of the label, a colon and only whitespace
after it (possible when the function is called on lines not stripped by
`split_lines`), `extract_value_after_colon` returns the empty string
rather than `None`: the whitespace-only value is reported as
present-but-empty instead of absent. -/
theorem claim_C10_whitespace_only_value :
    extract_value_after_colon [strA "Firma:   "] (strA "Firma") = some [] ∧
      extract_value_after_colon [strA "Firma:   "] (strA "Firma") ≠ none := by
  decide

-- -----------------------------
-- extract_first_person_name (C2)
-- -----------------------------

/-- C2 (amended): `extract_first_person_name` returns the very first
qualifying line (non-blank, containing no colon, not a known header),
stripped, regardless of honorifics — the honorific branch and the
fallback branch return the same line, so no preference for
honorific-bearing lines exists — and returns no name when no line
qualifies. -/
theorem claim_C2_first_person_name_amended :
    ∀ section_lines : List Line,
      extract_first_person_name section_lines =
        (section_lines.find? qualifiesB).map pyStrip := by
  intro ls
  induction ls with
  | nil => rfl
  | cons ln rest ih =>
      rw [extract_first_person_name]
      by_cases h1 : ln = []
      · rw [if_pos h1, List.find?_cons_of_neg _ (by simp [qualifiesB, h1])]
        exact ih
      · rw [if_neg h1]
        by_cases h2 : ':' ∈ ln
        · rw [if_pos h2, List.find?_cons_of_neg _ (by simp [qualifiesB, h2])]
          exact ih
        · rw [if_neg h2]
          by_cases h3 : ln ∈ HEADERS
          · rw [if_pos h3, List.find?_cons_of_neg _ (by simp [qualifiesB, h3])]
            exact ih
          · rw [if_neg h3, List.find?_cons_of_pos _ (by simp [qualifiesB, h1, h2, h3])]
            simp

/-- C2 (counterexample): with section lines
`["Acme Str. 5", "Herr Max Mustermann"]` a qualifying line carries an
honorific, yet the function returns the first qualifying line
`"Acme Str. 5"`, which carries none — refuting the claim that a line
beginning with an honorific is returned whenever one exists. -/
theorem claim_C2_counterexample :
    extract_first_person_name [strA "Acme Str. 5", strA "Herr Max Mustermann"] =
        some (strA "Acme Str. 5") ∧
      qualifiesB (strA "Herr Max Mustermann") = true ∧
      matchesHonorific (strA "Herr Max Mustermann") = true ∧
      matchesHonorific (strA "Acme Str. 5") = false := by
  decide

-- -----------------------------
-- Association lists and find_header_indices invariants
-- -----------------------------

theorem lookupAssoc_mem {β : Type} :
    ∀ {m : List (Line × β)} {k : Line} {v : β}, lookupAssoc m k = some v → (k, v) ∈ m := by
  intro m
  induction m with
  | nil => intro k v h; cases h
  | cons q rest ih =>
      intro k v h
      obtain ⟨k', v'⟩ := q
      rw [lookupAssoc] at h
      by_cases hk : k' = k
      · rw [if_pos hk] at h
        injection h with hv
        subst hk; subst hv
        exact List.mem_cons_self _ _
      · rw [if_neg hk] at h
        exact List.mem_cons_of_mem _ (ih h)

theorem lookupAssoc_eq_none_iff {β : Type} :
    ∀ (m : List (Line × β)) (k : Line), lookupAssoc m k = none ↔ k ∉ m.map Prod.fst := by
  intro m
  induction m with
  | nil => intro k; simp [lookupAssoc]
  | cons q rest ih =>
      intro k
      obtain ⟨k', v'⟩ := q
      rw [lookupAssoc]
      by_cases hk : k' = k
      · subst hk
        rw [if_pos rfl, List.map_cons]
        constructor
        · intro h; cases h
        · intro hmem
          exact absurd (List.mem_cons_self _ _) hmem
      · rw [if_neg hk, ih k, List.map_cons]
        constructor
        · intro h hmem
          rcases List.mem_cons.mp hmem with he | hm
          · exact hk he.symm
          · exact h hm
        · intro h hm
          exact h (List.mem_cons_of_mem _ hm)

theorem mem_lookupAssoc_of_nodup {β : Type} :
    ∀ {m : List (Line × β)} {k : Line} {v : β},
      (m.map Prod.fst).Nodup → (k, v) ∈ m → lookupAssoc m k = some v := by
  intro m
  induction m with
  | nil => intro k v _ h; cases h
  | cons q rest ih =>
      intro k v hnd hm
      obtain ⟨k', v'⟩ := q
      rw [List.map_cons, List.nodup_cons] at hnd
      rw [lookupAssoc]
      rcases List.mem_cons.mp hm with h1 | h2
      · injection h1 with h1a h1b
        rw [if_pos h1a.symm, h1b]
      · have hk : k' ≠ k := by
          intro he
          subst he
          exact hnd.1 (List.mem_map.mpr ⟨(k', v), h2, rfl⟩)
        rw [if_neg hk]
        exact ih hnd.2 h2

theorem fhiGo_bound (headers : List Line) :
    ∀ (rest : List Line) (i : Nat) (acc : List (Line × Nat)),
      (∀ p ∈ acc, p.2 < i) → ∀ p ∈ fhiGo headers rest i acc, p.2 < i + rest.length := by
  intro rest
  induction rest with
  | nil =>
      intro i acc hacc p hp
      rw [fhiGo] at hp
      have := hacc p hp
      simpa using Nat.lt_of_lt_of_le this (Nat.le_add_right i 0)
  | cons ln rs ih =>
      intro i acc hacc p hp
      rw [fhiGo] at hp
      have hlen : (i + 1) + rs.length = i + (ln :: rs).length := by
        simp [List.length_cons]; omega
      by_cases hg : ln ∈ headers ∧ lookupAssoc acc ln = none
      · rw [if_pos hg] at hp
        have hacc' : ∀ q ∈ acc ++ [(ln, i)], q.2 < i + 1 := by
          intro q hq
          rcases List.mem_append.mp hq with h1 | h2
          · exact Nat.lt_succ_of_lt (hacc q h1)
          · rcases List.mem_singleton.mp h2 with rfl
            exact Nat.lt_succ_self i
        have := ih (i + 1) (acc ++ [(ln, i)]) hacc' p hp
        omega
      · rw [if_neg hg] at hp
        have := ih (i + 1) acc (fun q hq => Nat.lt_succ_of_lt (hacc q hq)) p hp
        omega

theorem fhiGo_mem_src (headers : List Line) :
    ∀ (rest : List Line) (i : Nat) (acc : List (Line × Nat)) (p : Line × Nat),
      p ∈ fhiGo headers rest i acc → p ∈ acc ∨ p.1 ∈ rest := by
  intro rest
  induction rest with
  | nil =>
      intro i acc p hp
      rw [fhiGo] at hp
      exact Or.inl hp
  | cons ln rs ih =>
      intro i acc p hp
      rw [fhiGo] at hp
      by_cases hg : ln ∈ headers ∧ lookupAssoc acc ln = none
      · rw [if_pos hg] at hp
        rcases ih (i + 1) (acc ++ [(ln, i)]) p hp with h1 | h2
        · rcases List.mem_append.mp h1 with ha | hb
          · exact Or.inl ha
          · rcases List.mem_singleton.mp hb with rfl
            exact Or.inr (List.mem_cons_self _ _)
        · exact Or.inr (List.mem_cons_of_mem _ h2)
      · rw [if_neg hg] at hp
        rcases ih (i + 1) acc p hp with h1 | h2
        · exact Or.inl h1
        · exact Or.inr (List.mem_cons_of_mem _ h2)

theorem fhiGo_keys_nodup (headers : List Line) :
    ∀ (rest : List Line) (i : Nat) (acc : List (Line × Nat)),
      (acc.map Prod.fst).Nodup → ((fhiGo headers rest i acc).map Prod.fst).Nodup := by
  intro rest
  induction rest with
  | nil =>
      intro i acc hacc
      rw [fhiGo]
      exact hacc
  | cons ln rs ih =>
      intro i acc hacc
      rw [fhiGo]
      by_cases hg : ln ∈ headers ∧ lookupAssoc acc ln = none
      · rw [if_pos hg]
        refine ih (i + 1) (acc ++ [(ln, i)]) ?_
        rw [List.map_append]
        rw [List.nodup_append]
        refine ⟨hacc, List.nodup_singleton _, ?_⟩
        intro a ha hb
        rcases List.mem_singleton.mp hb with rfl
        exact ((lookupAssoc_eq_none_iff acc a).mp hg.2) ha
      · rw [if_neg hg]
        exact ih (i + 1) acc hacc

theorem fhi_lookup_lt {lines headers : List Line} {k : Line} {v : Nat}
    (h : lookupAssoc (find_header_indices lines headers) k = some v) : v < lines.length := by
  have hm := lookupAssoc_mem h
  have := fhiGo_bound headers lines 0 [] (by intro p hp; cases hp) (k, v) hm
  simpa using this

theorem fhi_lookup_mem_lines {lines headers : List Line} {k : Line} {v : Nat}
    (h : lookupAssoc (find_header_indices lines headers) k = some v) : k ∈ lines := by
  have hm := lookupAssoc_mem h
  rcases fhiGo_mem_src headers lines 0 [] (k, v) hm with h1 | h2
  · cases h1
  · exact h2

theorem fhi_keys_nodup (lines headers : List Line) :
    ((find_header_indices lines headers).map Prod.fst).Nodup :=
  fhiGo_keys_nodup headers lines 0 [] (by simp)

-- -----------------------------
-- The title-sorted scan of get_section_slice (C1, C7)
-- -----------------------------

theorem listLtB_irrefl : ∀ l : Line, listLtB l l = false := by
  intro l
  induction l with
  | nil => rfl
  | cons a as_ ih => simp [listLtB, ih]

theorem listLtB_asymm : ∀ {a b : Line}, listLtB a b = true → listLtB b a = true → False := by
  intro a
  induction a with
  | nil =>
      intro b h1 h2
      cases b with
      | nil => cases h1
      | cons x xs => cases h2
  | cons x xs ih =>
      intro b h1 h2
      cases b with
      | nil => cases h1
      | cons y ys =>
          rw [listLtB] at h1 h2
          by_cases hxy : x < y
          · rw [if_pos hxy] at h1
            rw [if_neg (lt_asymm hxy), if_pos hxy] at h2
            cases h2
          · rw [if_neg hxy] at h1
            by_cases hyx : y < x
            · rw [if_pos hyx] at h1; cases h1
            · rw [if_neg hyx] at h1
              rw [if_neg hyx, if_neg hxy] at h2
              exact ih h1 h2

theorem listLtB_connex : ∀ (a b : Line), a ≠ b → listLtB a b = true ∨ listLtB b a = true := by
  intro a
  induction a with
  | nil =>
      intro b hne
      cases b with
      | nil => exact absurd rfl hne
      | cons y ys => exact Or.inl rfl
  | cons x xs ih =>
      intro b hne
      cases b with
      | nil => exact Or.inr rfl
      | cons y ys =>
          rcases lt_trichotomy x y with h | h | h
          · left; simp [listLtB, h]
          · subst h
            have hne' : xs ≠ ys := by
              intro he; exact hne (by rw [he])
            rcases ih ys hne' with h1 | h1
            · left; simp [listLtB, lt_irrefl, h1]
            · right; simp [listLtB, lt_irrefl, h1]
          · right; simp [listLtB, h]

theorem listLtB_trans :
    ∀ (a b c : Line), listLtB a b = true → listLtB b c = true → listLtB a c = true := by
  intro a
  induction a with
  | nil =>
      intro b c h1 h2
      cases b with
      | nil => cases h1
      | cons y ys =>
          cases c with
          | nil => cases h2
          | cons z zs => rfl
  | cons x xs ih =>
      intro b c h1 h2
      cases b with
      | nil => cases h1
      | cons y ys =>
          cases c with
          | nil => cases h2
          | cons z zs =>
              rw [listLtB] at h1 h2 ⊢
              rcases lt_trichotomy x y with hxy | hxy | hxy
              · rcases lt_trichotomy y z with hyz | hyz | hyz
                · rw [if_pos (lt_trans hxy hyz)]
                · subst hyz
                  rw [if_pos hxy]
                · rw [if_neg (not_lt.mpr (le_of_lt hyz)), if_pos hyz] at h2
                  cases h2
              · subst hxy
                rw [if_neg (lt_irrefl x), if_neg (lt_irrefl x)] at h1
                rcases lt_trichotomy x z with hxz | hxz | hxz
                · rw [if_pos hxz]
                · subst hxz
                  rw [if_neg (lt_irrefl x), if_neg (lt_irrefl x)] at h2
                  rw [if_neg (lt_irrefl x), if_neg (lt_irrefl x)]
                  exact ih ys zs h1 h2
                · rw [if_neg (not_lt.mpr (le_of_lt hxz)), if_pos hxz] at h2
                  cases h2
              · rw [if_neg (not_lt.mpr (le_of_lt hxy)), if_pos hxy] at h1
                cases h1

theorem pairLe_total : ∀ p q : Line × Nat, pairLe p q = true ∨ pairLe q p = true := by
  intro p q
  by_cases hk : p.1 = q.1
  · rcases Nat.le_total p.2 q.2 with h | h
    · left; simp [pairLe, hk, h]
    · right; simp [pairLe, hk.symm, h]
  · rcases listLtB_connex p.1 q.1 hk with h | h
    · left; simp [pairLe, h]
    · right; simp [pairLe, h]

theorem pairLe_trans :
    ∀ p q r : Line × Nat, pairLe p q = true → pairLe q r = true → pairLe p r = true := by
  intro p q r h1 h2
  rw [pairLe, Bool.or_eq_true] at h1 h2 ⊢
  rcases h1 with h1 | h1
  · rcases h2 with h2 | h2
    · exact Or.inl (listLtB_trans _ _ _ h1 h2)
    · rw [Bool.and_eq_true, decide_eq_true_eq, decide_eq_true_eq] at h2
      exact Or.inl (h2.1 ▸ h1)
  · rw [Bool.and_eq_true, decide_eq_true_eq, decide_eq_true_eq] at h1
    rcases h2 with h2 | h2
    · exact Or.inl (h1.1.symm ▸ h2)
    · rw [Bool.and_eq_true, decide_eq_true_eq, decide_eq_true_eq] at h2
      right
      rw [Bool.and_eq_true, decide_eq_true_eq, decide_eq_true_eq]
      exact ⟨h1.1.trans h2.1, h1.2.trans h2.2⟩

theorem insertPair_perm (p : Line × Nat) :
    ∀ l : List (Line × Nat), (insertPair p l).Perm (p :: l) := by
  intro l
  induction l with
  | nil => exact List.Perm.refl _
  | cons q qs ih =>
      rw [insertPair]
      by_cases h : pairLe p q = true
      · rw [if_pos h]
      · rw [if_neg h]
        exact (ih.cons q).trans (List.Perm.swap p q qs)

theorem sortPairs_perm : ∀ l : List (Line × Nat), (sortPairs l).Perm l := by
  intro l
  induction l with
  | nil => exact List.Perm.refl _
  | cons p ps ih =>
      rw [sortPairs]
      exact (insertPair_perm p (sortPairs ps)).trans (ih.cons p)

theorem insertPair_pairwise (p : Line × Nat) :
    ∀ l : List (Line × Nat),
      l.Pairwise (fun a b => pairLe a b = true) →
      (insertPair p l).Pairwise (fun a b => pairLe a b = true) := by
  intro l
  induction l with
  | nil =>
      intro _
      refine List.Pairwise.cons ?_ List.Pairwise.nil
      intro b hb
      cases hb
  | cons q qs ih =>
      intro hs
      rw [List.pairwise_cons] at hs
      rw [insertPair]
      by_cases h : pairLe p q = true
      · rw [if_pos h]
        rw [List.pairwise_cons]
        refine ⟨?_, List.pairwise_cons.mpr hs⟩
        intro a ha
        rcases List.mem_cons.mp ha with rfl | ha2
        · exact h
        · exact pairLe_trans p q a h (hs.1 a ha2)
      · rw [if_neg h]
        rw [List.pairwise_cons]
        refine ⟨?_, ih hs.2⟩
        intro a ha
        have hmem := (insertPair_perm p qs).mem_iff.mp ha
        rcases List.mem_cons.mp hmem with rfl | ha2
        · rcases pairLe_total q a with hq | hq
          · exact hq
          · exact absurd hq h
        · exact hs.1 a ha2

theorem sortPairs_pairwise :
    ∀ l : List (Line × Nat), (sortPairs l).Pairwise (fun a b => pairLe a b = true) := by
  intro l
  induction l with
  | nil => simp [sortPairs]
  | cons p ps ih =>
      rw [sortPairs]
      exact insertPair_pairwise p (sortPairs ps) ih

/-- In a `pairLe`-sorted association list with distinct keys, the
`for _, idx in starts_sorted: if idx > current` scan stops exactly at the
entry whose title is least among entries with index above the cutoff. -/
theorem find_first_gt {B : Line} {iB cur : Nat} :
    ∀ l : List (Line × Nat),
      l.Pairwise (fun a b => pairLe a b = true) →
      (l.map Prod.fst).Nodup →
      (B, iB) ∈ l →
      cur < iB →
      (∀ q ∈ l, cur < q.2 → q.1 ≠ B → listLtB B q.1 = true) →
      l.find? (fun p => decide (cur < p.2)) = some (B, iB) := by
  intro l
  induction l with
  | nil => intro _ _ hmem _ _; cases hmem
  | cons x rest ih =>
      intro hs hnd hmem hcur hmin
      rw [List.pairwise_cons] at hs
      rw [List.map_cons, List.nodup_cons] at hnd
      by_cases hx : cur < x.2
      · rw [List.find?_cons_of_pos _ (by simpa using hx)]
        rcases List.mem_cons.mp hmem with rfl | hrest
        · rfl
        · exfalso
          by_cases hxB : x.1 = B
          · exact hnd.1 (hxB ▸ List.mem_map.mpr ⟨(B, iB), hrest, rfl⟩)
          · have hlt : listLtB B x.1 = true := hmin x (List.mem_cons_self _ _) hx hxB
            have hle : pairLe x (B, iB) = true := hs.1 (B, iB) hrest
            rw [pairLe, Bool.or_eq_true] at hle
            rcases hle with hle | hle
            · exact listLtB_asymm hle hlt
            · rw [Bool.and_eq_true, decide_eq_true_eq] at hle
              exact hxB hle.1
      · rw [List.find?_cons_of_neg _ (by simpa using hx)]
        have hxne : x ≠ (B, iB) := by
          intro he
          rw [he] at hx
          exact hx hcur
        rcases List.mem_cons.mp hmem with he | hrest
        · exact (hxne he.symm).elim
        · exact ih hs.2 hnd.2 hrest hcur
            (fun q hq => hmin q (List.mem_cons_of_mem _ hq))

/-- C1 (amended): when a known header `B` is present with an index above
`A`'s and its title is (strictly) least — in Python string order — among
all present headers with index above `A`'s, the section for `A` ends
exactly at `B`'s index.  (The scan breaks at the first title-sorted
entry with a larger index, which need not be the nearest one.) -/
theorem claim_C1_section_end_amended (lines : List Line) (A B : Line) (iA iB : Nat)
    (hA : lookupAssoc (find_header_indices lines HEADERS) A = some iA)
    (hB : lookupAssoc (find_header_indices lines HEADERS) B = some iB)
    (hlt : iA < iB)
    (hmin : ∀ q ∈ find_header_indices lines HEADERS,
        iA < q.2 → q.1 ≠ B → listLtB B q.1 = true) :
    get_section_slice lines A (find_header_indices lines HEADERS) =
      ((iA : Int) + 1, (iB : Int)) := by
  have hperm := sortPairs_perm (find_header_indices lines HEADERS)
  have hfind :
      (sortPairs (find_header_indices lines HEADERS)).find?
          (fun p => decide (iA < p.2)) = some (B, iB) := by
    refine find_first_gt _ (sortPairs_pairwise _) ?_ ?_ hlt ?_
    · exact (hperm.map Prod.fst).nodup_iff.mpr (fhi_keys_nodup lines HEADERS)
    · exact hperm.mem_iff.mpr (lookupAssoc_mem hB)
    · intro q hq
      exact hmin q (hperm.mem_iff.mp hq)
  simp only [get_section_slice, hA, hfind]

/-- C1 witness: on `["Stellvertreter", "Anschlussnehmer", "Anschlussort"]`,
`"Anschlussnehmer"` is the title-least present header with index above
`"Stellvertreter"`'s, and the slice for `"Stellvertreter"` is `(1, 1)`. -/
theorem claim_C1_witness :
    get_section_slice
        [strA "Stellvertreter", strA "Anschlussnehmer", strA "Anschlussort"]
        (strA "Stellvertreter")
        (find_header_indices
          [strA "Stellvertreter", strA "Anschlussnehmer", strA "Anschlussort"] HEADERS) =
      ((0 : Int) + 1, (1 : Int)) :=
  claim_C1_section_end_amended
    [strA "Stellvertreter", strA "Anschlussnehmer", strA "Anschlussort"]
    (strA "Stellvertreter") (strA "Anschlussnehmer") 0 1
    (by decide) (by decide) (by decide) (by decide)

/-- C1 (counterexample): on lines
`["Stellvertreter", "Anschlussort", "Anschlussnehmer"]` the headers
`A = "Stellvertreter"` (index 0) and `B = "Anschlussort"` (index 1) are
adjacent — no known header lies strictly between them — yet the section
for `A` ends at 2, the index of the title-sorted-first header
`"Anschlussnehmer"`, not at `B`'s index 1: the end boundary is not the
nearest header with a greater index. -/
theorem claim_C1_counterexample :
    get_section_slice
        [strA "Stellvertreter", strA "Anschlussort", strA "Anschlussnehmer"]
        (strA "Stellvertreter")
        (find_header_indices
          [strA "Stellvertreter", strA "Anschlussort", strA "Anschlussnehmer"] HEADERS) =
      (1, 2) ∧
    lookupAssoc
        (find_header_indices
          [strA "Stellvertreter", strA "Anschlussort", strA "Anschlussnehmer"] HEADERS)
        (strA "Stellvertreter") = some 0 ∧
    lookupAssoc
        (find_header_indices
          [strA "Stellvertreter", strA "Anschlussort", strA "Anschlussnehmer"] HEADERS)
        (strA "Anschlussort") = some 1 ∧
    (2 : Int) ≠ (1 : Int) := by
  refine ⟨by decide, by decide, by decide, by decide⟩

/-- C7: for every line sequence and header, with the header-index map
produced by `find_header_indices`, the pair returned by
`get_section_slice` satisfies `start ≤ end` — including the `(-1, -1)`
sentinel case for absent headers. -/
theorem claim_C7_start_le_end :
    ∀ (lines : List Line) (header : Line),
      (get_section_slice lines header (find_header_indices lines HEADERS)).1 ≤
        (get_section_slice lines header (find_header_indices lines HEADERS)).2 := by
  intro lines header
  cases h : lookupAssoc (find_header_indices lines HEADERS) header with
  | none => simp [get_section_slice, h]
  | some cur =>
      simp only [get_section_slice, h]
      cases hf : (sortPairs (find_header_indices lines HEADERS)).find?
          (fun p => decide (cur < p.2)) with
      | some p =>
          have hp := List.find?_some hf
          rw [decide_eq_true_eq] at hp
          simp only [hf]
          omega
      | none =>
          simp only [hf]
          have hlt : cur < lines.length := fhi_lookup_lt h
          omega

-- -----------------------------
-- Absent headers (C6)
-- -----------------------------

theorem slice_sentinel_of_absent {lines : List Line} {H : Line} (habs : H ∉ lines) :
    get_section_slice lines H (find_header_indices lines HEADERS) = (-1, -1) := by
  cases hl : lookupAssoc (find_header_indices lines HEADERS) H with
  | some v => exact absurd (fhi_lookup_mem_lines hl) habs
  | none => rw [get_section_slice, hl]

theorem sectionLinesOpt_eq_none {lines : List Line} {H : Line}
    (h : get_section_slice lines H (find_header_indices lines HEADERS) = (-1, -1)) :
    sectionLinesOpt lines H = none := by
  rw [sectionLinesOpt, h]
  rfl

theorem lookup_extractRFGo_none {lines : List Line} {H : Line}
    (hnone : sectionLinesOpt lines H = none) :
    ∀ hs : List Line, lookupAssoc (extractRFGo lines hs) H = none := by
  intro hs
  induction hs with
  | nil => rfl
  | cons h rest ih =>
      rw [extractRFGo]
      by_cases hh : h = H
      · subst hh
        rw [hnone]
        exact ih
      · cases hsl : sectionLinesOpt lines h with
        | none =>
            simp only [hsl]
            exact ih
        | some sl =>
            simp only [hsl]
            by_cases hso : buildSectionOut h sl = []
            · rw [if_pos hso]
              exact ih
            · rw [if_neg hso, lookupAssoc, if_neg hh]
              exact ih

/-- C6: a known header absent from the input lines gets the sentinel
slice `(-1, -1)` from `get_section_slice` instead of failing, and the
result of `extract_requested_fields` contains no entry for it. -/
theorem claim_C6_absent_header (lines : List Line) (H : Line)
    (_hH : H ∈ HEADERS) (habs : H ∉ lines) :
    get_section_slice lines H (find_header_indices lines HEADERS) = (-1, -1) ∧
      lookupAssoc (extract_requested_fields lines) H = none := by
  have hs := slice_sentinel_of_absent habs
  exact ⟨hs, lookup_extractRFGo_none (sectionLinesOpt_eq_none hs) HEADERS⟩

/-- C6 witness: `"Anschlussort"` is a known header absent from the single
line `["foo"]`; the slice is the sentinel and the result has no entry. -/
theorem claim_C6_witness :
    get_section_slice [strA "foo"] (strA "Anschlussort")
        (find_header_indices [strA "foo"] HEADERS) = (-1, -1) ∧
      lookupAssoc (extract_requested_fields [strA "foo"]) (strA "Anschlussort") = none :=
  claim_C6_absent_header [strA "foo"] (strA "Anschlussort") (by decide) (by decide)

-- -----------------------------
-- format_as_txt (C8)
-- -----------------------------

theorem getLast?_trimRight_not_space {y : Line} {c : Char}
    (h : (trimRight y).getLast? = some c) : isPySpace c = false := by
  rw [trimRight, List.getLast?_reverse] at h
  cases hd : y.reverse.dropWhile isPySpace with
  | nil => rw [hd] at h; cases h
  | cons a t =>
      rw [hd] at h
      injection h with he
      subst he
      exact head_not_sat_of_dropWhile hd

theorem bullet_not_mem_headers (f : Line) : (strA "- " ++ f) ∉ HEADERS := by
  intro hmem
  have h1 : (strA "- " ++ f).head? = some '-' := rfl
  have h2 : ∀ h ∈ HEADERS, h.head? ≠ some '-' := by decide
  exact h2 _ hmem h1

theorem formatParts_filter (results : List (Line × List Line)) :
    ∀ hs : List Line, (∀ h ∈ hs, h ∈ HEADERS) →
      (formatPartsGo results hs).filter (fun l => decide (l ∈ HEADERS)) =
        hs.filter (fun h => (lookupAssoc results h).isSome) := by
  intro hs
  induction hs with
  | nil => intro _; rfl
  | cons h rest ih =>
      intro hmem
      have hh : h ∈ HEADERS := hmem h (List.mem_cons_self _ _)
      have hrest : ∀ x ∈ rest, x ∈ HEADERS := fun x hx => hmem x (List.mem_cons_of_mem _ hx)
      rw [formatPartsGo]
      cases hlk : lookupAssoc results h with
      | none =>
          simp only [hlk]
          rw [ih hrest, List.filter_cons_of_neg (by simp [hlk])]
      | some fields =>
          simp only [hlk]
          have hb : (fields.map (fun f => strA "- " ++ f)).filter
              (fun l => decide (l ∈ HEADERS)) = [] := by
            rw [List.filter_eq_nil_iff]
            intro a ha
            obtain ⟨f, _, rfl⟩ := List.mem_map.mp ha
            simpa using bullet_not_mem_headers f
          have hblank : ([([] : Line)].filter (fun l => decide (l ∈ HEADERS))) = [] := by
            decide
          rw [List.filter_append, List.filter_append,
            List.filter_cons_of_pos (by simpa using hh), hb, hblank, ih hrest,
            List.filter_cons_of_pos (by simp [hlk])]
          simp

/-- C8: `format_as_txt` ends the output with exactly one trailing newline
after trimming trailing whitespace (the character before the final
newline, if any, is never whitespace); it visits headers in the fixed
configured order, skipping headers absent from the result (the header
lines appearing in `parts` are exactly the configured headers present in
the result, in configured order); and on the spec's end-to-end example it
emits the header line, one bulleted line and the single trailing
newline. -/
theorem claim_C8_format_as_txt :
    (∀ results : List (Line × List Line),
        ∃ s, format_as_txt results = s ++ ['\n'] ∧
          s.getLast?.all (fun c => !isPySpace c) = true) ∧
    (∀ results : List (Line × List Line),
        (formatPartsGo results HEADERS).filter (fun l => decide (l ∈ HEADERS)) =
          HEADERS.filter (fun h => (lookupAssoc results h).isSome)) ∧
    format_as_txt [(strA "Anschlussort", [strA "Straße: Hauptstraße 1"])] =
      strA "Anschlussort\n- Straße: Hauptstraße 1\n" := by
  refine ⟨?_, fun results => formatParts_filter results HEADERS (fun h hh => hh), by decide⟩
  intro results
  refine ⟨pyStrip (List.intercalate ['\n'] (formatPartsGo results HEADERS)), rfl, ?_⟩
  cases hl : (pyStrip (List.intercalate ['\n'] (formatPartsGo results HEADERS))).getLast? with
  | none => rfl
  | some c =>
      have : isPySpace c = false := by
        rw [pyStrip] at hl
        exact getLast?_trimRight_not_space hl
      simp [Option.all, this]

-- -----------------------------
-- Widget updates (C4, C5)
-- -----------------------------

theorem updateInPage_none_iff (name : Line) (g : Widget → Line) :
    ∀ pg : List Widget, updateInPage name g pg = none ↔ findWidgetInPage name pg = none := by
  intro pg
  induction pg with
  | nil => simp [updateInPage, findWidgetInPage]
  | cons w ws ih =>
      rw [updateInPage, findWidgetInPage]
      by_cases h : w.fieldName = name
      · rw [if_pos h, if_pos h]
        simp
      · rw [if_neg h, if_neg h, ← ih]
        cases hu : updateInPage name g ws with
        | none => simp [hu]
        | some p2 => simp [hu]

theorem updateInPage_find_self {name : Line} {g : Widget → Line} :
    ∀ {pg pg2 : List Widget}, updateInPage name g pg = some pg2 →
      findWidgetInPage name pg2 =
        (findWidgetInPage name pg).map (fun w => { w with fieldValue := g w }) := by
  intro pg
  induction pg with
  | nil => intro pg2 h; cases h
  | cons w ws ih =>
      intro pg2 h
      rw [updateInPage] at h
      by_cases hw : w.fieldName = name
      · rw [if_pos hw] at h
        injection h with h2
        subst h2
        simp [findWidgetInPage, hw]
      · rw [if_neg hw] at h
        cases hu : updateInPage name g ws with
        | none => rw [hu] at h; cases h
        | some ws2 =>
            rw [hu] at h
            injection h with h2
            subst h2
            rw [findWidgetInPage, if_neg hw, findWidgetInPage, if_neg hw]
            exact ih hu

theorem updateInPage_find_other {name m : Line} (hne : m ≠ name) {g : Widget → Line} :
    ∀ {pg pg2 : List Widget}, updateInPage name g pg = some pg2 →
      findWidgetInPage m pg2 = findWidgetInPage m pg := by
  intro pg
  induction pg with
  | nil => intro pg2 h; cases h
  | cons w ws ih =>
      intro pg2 h
      rw [updateInPage] at h
      by_cases hw : w.fieldName = name
      · rw [if_pos hw] at h
        injection h with h2
        subst h2
        have hm : w.fieldName ≠ m := by rw [hw]; exact fun he => hne he.symm
        rw [findWidgetInPage, if_neg hm, findWidgetInPage]
        rw [if_neg (by simpa using hm)]
      · rw [if_neg hw] at h
        cases hu : updateInPage name g ws with
        | none => rw [hu] at h; cases h
        | some ws2 =>
            rw [hu] at h
            injection h with h2
            subst h2
            by_cases hm : w.fieldName = m
            · rw [findWidgetInPage, if_pos hm, findWidgetInPage, if_pos hm]
            · rw [findWidgetInPage, if_neg hm, findWidgetInPage, if_neg hm]
              exact ih hu

theorem updateFirstWidget_find_self (name : Line) (g : Widget → Line) :
    ∀ doc : Doc,
      findFirstWidget (updateFirstWidget name g doc) name =
        (findFirstWidget doc name).map (fun w => { w with fieldValue := g w }) := by
  intro doc
  induction doc with
  | nil => rfl
  | cons pg rest ih =>
      rw [updateFirstWidget]
      cases hu : updateInPage name g pg with
      | some pg2 =>
          cases hfp : findWidgetInPage name pg with
          | none => exact absurd ((updateInPage_none_iff name g pg).mpr hfp) (by simp [hu])
          | some w0 =>
              have hf := updateInPage_find_self hu
              rw [hfp] at hf
              rw [findFirstWidget, hf, findFirstWidget, hfp]
              rfl
      | none =>
          have hfp : findWidgetInPage name pg = none := (updateInPage_none_iff name g pg).mp hu
          rw [findFirstWidget, hfp, findFirstWidget, hfp]
          exact ih

theorem updateFirstWidget_find_other {name m : Line} (hne : m ≠ name) (g : Widget → Line) :
    ∀ doc : Doc,
      findFirstWidget (updateFirstWidget name g doc) m = findFirstWidget doc m := by
  intro doc
  induction doc with
  | nil => rfl
  | cons pg rest ih =>
      rw [updateFirstWidget]
      cases hu : updateInPage name g pg with
      | some pg2 =>
          rw [findFirstWidget, updateInPage_find_other hne hu, findFirstWidget]
      | none =>
          rw [findFirstWidget, findFirstWidget]
          cases hfp : findWidgetInPage m pg with
          | some w0 => rfl
          | none => exact ih

theorem findWidgetInPage_none_of_no {name : Line} :
    ∀ {pg : List Widget}, (∀ w ∈ pg, w.fieldName ≠ name) → findWidgetInPage name pg = none := by
  intro pg
  induction pg with
  | nil => intro _; rfl
  | cons w ws ih =>
      intro h
      rw [findWidgetInPage, if_neg (h w (List.mem_cons_self _ _))]
      exact ih (fun x hx => h x (List.mem_cons_of_mem _ hx))

theorem updateFirstWidget_id_of_no {name : Line} {g : Widget → Line} :
    ∀ {doc : Doc}, noWidgetNamed doc name → updateFirstWidget name g doc = doc := by
  intro doc
  induction doc with
  | nil => intro _; rfl
  | cons pg rest ih =>
      intro h
      have hpg : findWidgetInPage name pg = none :=
        findWidgetInPage_none_of_no (h pg (List.mem_cons_self _ _))
      have hu : updateInPage name g pg = none := (updateInPage_none_iff name g pg).mpr hpg
      rw [updateFirstWidget, hu, ih (fun p hp => h p (List.mem_cons_of_mem _ hp))]

theorem set_text_field_id_of_no {doc : Doc} {n v : Line} (h : noWidgetNamed doc n) :
    set_text_field doc n v = doc :=
  updateFirstWidget_id_of_no h

theorem set_checkbox_id_of_no {doc : Doc} {n : Line} {c : Bool} (h : noWidgetNamed doc n) :
    set_checkbox doc n c = doc :=
  updateFirstWidget_id_of_no h

/-- C5: a mapped field name with no matching widget in the template is
silently skipped — the total functions `_set_text_field` / `_set_checkbox`
return the document unchanged (no exception is modelled because the
scanning loop simply falls through) — and when every mapped name is
missing, `fill_template_pdf` leaves the whole template untouched, so no
other widget's value is affected by the skipped assignments. -/
theorem claim_C5_missing_template_field :
    (∀ (doc : Doc) (n v : Line), noWidgetNamed doc n → set_text_field doc n v = doc) ∧
    (∀ (doc : Doc) (n : Line) (c : Bool), noWidgetNamed doc n → set_checkbox doc n c = doc) ∧
    (∀ (doc : Doc) (extracted : List (Line × Line)) (today : Line),
        (∀ n ∈ mappedFieldNames, noWidgetNamed doc n) →
          fill_template_pdf doc extracted today = doc) := by
  refine ⟨fun _ _ _ h => set_text_field_id_of_no h,
    fun _ _ _ h => set_checkbox_id_of_no h, ?_⟩
  intro doc extracted today h
  have h01 : noWidgetNamed doc (strA "Name Vorname") := h _ (by decide)
  have h02 : noWidgetNamed doc (strA "Straße  Nr  Ort") := h _ (by decide)
  have h03 : noWidgetNamed doc (strA "Telefonnummer") := h _ (by decide)
  have h04 : noWidgetNamed doc (strA "2 Standort der Photovoltaikanlage") := h _ (by decide)
  have h05 : noWidgetNamed doc (strA "Check 1") := h _ (by decide)
  have h06 : noWidgetNamed doc (strA "Check 5") := h _ (by decide)
  have h07 : noWidgetNamed doc (strA "Check 7") := h _ (by decide)
  have h08 : noWidgetNamed doc (strA "Check 9") := h _ (by decide)
  have h09 : noWidgetNamed doc (strA "Bemerkung 5") := h _ (by decide)
  have h10 : noWidgetNamed doc (strA "Bemerkung 9") := h _ (by decide)
  have h11 : noWidgetNamed doc (strA "kWp") := h _ (by decide)
  have h12 : noWidgetNamed doc (strA "kWh") := h _ (by decide)
  have h13 : noWidgetNamed doc (strA "ja_2") := h _ (by decide)
  simp only [fill_template_pdf]
  rw [set_text_field_id_of_no h01, set_text_field_id_of_no h02,
    set_text_field_id_of_no h03, set_text_field_id_of_no h04,
    set_checkbox_id_of_no h05, set_checkbox_id_of_no h06,
    set_checkbox_id_of_no h07, set_checkbox_id_of_no h08,
    set_text_field_id_of_no h09, set_text_field_id_of_no h10,
    set_text_field_id_of_no h11, set_text_field_id_of_no h12,
    set_checkbox_id_of_no h13]

instance (doc : Doc) (name : Line) : Decidable (noWidgetNamed doc name) := by
  unfold noWidgetNamed
  infer_instance

/-- C5 witness: a one-widget template whose only field name is unmapped
is returned unchanged by `fill_template_pdf`. -/
theorem claim_C5_witness :
    fill_template_pdf [[⟨strA "Sonstiges", strA "x", strA "Ja"⟩]]
        [(strA "speicher_kwh", strA "10.5")] (strA "01.01.2026") =
      [[⟨strA "Sonstiges", strA "x", strA "Ja"⟩]] :=
  claim_C5_missing_template_field.2.2
    [[⟨strA "Sonstiges", strA "x", strA "Ja"⟩]]
    [(strA "speicher_kwh", strA "10.5")] (strA "01.01.2026")
    (by decide)

/-- C4: `fill_template_pdf` sets the checkbox `"ja_2"` — its first widget
in page order — to the widget's template-defined on-state exactly when
the stripped `"speicher_kwh"` value is non-empty, and to the `"Off"`
state when that value is empty or the key is missing; all other
assignments target different field names and leave that widget alone. -/
theorem claim_C4_ja2_checkbox (doc : Doc) (extracted : List (Line × Line)) (today : Line)
    (w : Widget) (hw : findFirstWidget doc (strA "ja_2") = some w) :
    findFirstWidget (fill_template_pdf doc extracted today) (strA "ja_2") =
      some { w with fieldValue :=
        (if pyStrip (dictGetD extracted (strA "speicher_kwh") []) = [] then strA "Off"
          else w.onState) } := by
  have hne : ∀ n : Line, n ≠ strA "ja_2" →
      ∀ (g : Widget → Line) (d : Doc),
        findFirstWidget (updateFirstWidget n g d) (strA "ja_2") =
          findFirstWidget d (strA "ja_2") := by
    intro n hn g d
    exact updateFirstWidget_find_other (fun he => hn he.symm) g d
  simp only [fill_template_pdf, set_text_field, set_checkbox]
  rw [updateFirstWidget_find_self]
  rw [hne _ (by decide), hne _ (by decide), hne _ (by decide), hne _ (by decide),
    hne _ (by decide), hne _ (by decide), hne _ (by decide), hne _ (by decide),
    hne _ (by decide), hne _ (by decide), hne _ (by decide), hne _ (by decide)]
  rw [hw]
  by_cases hs : pyStrip (dictGetD extracted (strA "speicher_kwh") []) = []
  · rw [if_pos hs]
    simp [hs, List.isEmpty_iff]
  · rw [if_neg hs]
    simp [List.isEmpty_iff, hs]

/-- C4 witness: on a one-checkbox template whose on-state is `"Ja"`,
a non-empty `"speicher_kwh"` value checks the box to `"Ja"`, while a
missing key leaves it at `"Off"`. -/
theorem claim_C4_witness :
    findFirstWidget
        (fill_template_pdf [[⟨strA "ja_2", [], strA "Ja"⟩]]
          [(strA "speicher_kwh", strA "10.5")] (strA "01.01.2026"))
        (strA "ja_2") = some ⟨strA "ja_2", strA "Ja", strA "Ja"⟩ ∧
    findFirstWidget
        (fill_template_pdf [[⟨strA "ja_2", [], strA "Ja"⟩]] [] (strA "01.01.2026"))
        (strA "ja_2") = some ⟨strA "ja_2", strA "Off", strA "Ja"⟩ :=
  ⟨(claim_C4_ja2_checkbox [[⟨strA "ja_2", [], strA "Ja"⟩]]
        [(strA "speicher_kwh", strA "10.5")] (strA "01.01.2026")
        ⟨strA "ja_2", [], strA "Ja"⟩ (by decide)).trans (by decide),
   (claim_C4_ja2_checkbox [[⟨strA "ja_2", [], strA "Ja"⟩]] [] (strA "01.01.2026")
        ⟨strA "ja_2", [], strA "Ja"⟩ (by decide)).trans (by decide)⟩

-- -----------------------------
-- Round-trip of build_extracted_dict (C9): string plumbing
-- -----------------------------

theorem pyStrip_cons_space {c : Char} (h : isPySpace c = true) (v : Line) :
    pyStrip (c :: v) = pyStrip v := by
  rw [pyStrip, trimLeft, List.dropWhile_cons_of_pos h]
  rfl

theorem startsWithB_append_self : ∀ p r : Line, startsWithB p (p ++ r) = true := by
  intro p
  induction p with
  | nil => intro r; rfl
  | cons a ps ih =>
      intro r
      rw [List.cons_append, startsWithB, if_pos rfl]
      exact ih r

theorem startsWithB_false_head {a b : Char} (h : a ≠ b) (p l : Line) :
    startsWithB (a :: p) (b :: l) = false := by
  rw [startsWithB, if_neg h]

theorem afterFirstColon_concat :
    ∀ (u : Line), (∀ x ∈ u, x ≠ ':') → ∀ r : Line, afterFirstColon (u ++ ':' :: r) = r := by
  intro u
  induction u with
  | nil =>
      intro _ r
      rw [List.nil_append, afterFirstColon, if_pos rfl]
  | cons x xs ih =>
      intro h r
      rw [List.cons_append, afterFirstColon, if_neg (h x (List.mem_cons_self _ _))]
      exact ih (fun y hy => h y (List.mem_cons_of_mem _ hy)) r

theorem lstripDashSpace_cons {c : Char} (h : (decide (c = '-') || decide (c = ' ')) = false)
    (t : Line) : lstripDashSpace (c :: t) = c :: t := by
  rw [lstripDashSpace, List.dropWhile_cons_of_neg (by simp_all)]

theorem trimRight_of_pyStrip_stable {v : Line} (h : pyStrip v = v) : trimRight v = v := by
  conv_lhs => rw [← h]
  rw [trimRight_pyStrip, h]

theorem evac_stable : ∀ {sl : List Line} {lab v : Line},
    extract_value_after_colon sl lab = some v → pyStrip v = v := by
  intro sl
  induction sl with
  | nil => intro lab v h; cases h
  | cons ln rest ih =>
      intro lab v h
      rw [extract_value_after_colon] at h
      cases hm : lineValueMatch lab ln with
      | some v0 =>
          rw [hm] at h
          injection h with hv
          subst hv
          obtain ⟨p, w, s, _, _, _, _, hv⟩ := (lineValueMatch_some_iff lab ln v0).mp hm
          rw [hv]
          exact pyStrip_pyStrip s
      | none =>
          rw [hm] at h
          exact ih h

theorem efpn_stable : ∀ {sl : List Line} {n : Line},
    extract_first_person_name sl = some n → pyStrip n = n := by
  intro sl
  induction sl with
  | nil => intro n h; cases h
  | cons ln rest ih =>
      intro n h
      rw [extract_first_person_name] at h
      by_cases h1 : ln = []
      · rw [if_pos h1] at h; exact ih h
      · rw [if_neg h1] at h
        by_cases h2 : ':' ∈ ln
        · rw [if_pos h2] at h; exact ih h
        · rw [if_neg h2] at h
          by_cases h3 : ln ∈ HEADERS
          · rw [if_pos h3] at h; exact ih h
          · rw [if_neg h3] at h
            by_cases h4 : matchesHonorific ln = true
            · rw [if_pos h4] at h
              injection h with hn
              subst hn
              exact pyStrip_pyStrip ln
            · rw [if_neg h4] at h
              injection h with hn
              subst hn
              exact pyStrip_pyStrip ln

/-- Normalization: a stored `"Label: value"` line with a non-blank
non-dash leading character and a right-stable non-empty value survives
`lstrip("- ")` and `strip()` unchanged. -/
theorem stored_norm {c : Char} {t v : Line}
    (hc1 : (decide (c = '-') || decide (c = ' ')) = false) (hc2 : isPySpace c = false)
    (hv : trimRight v = v) (h0 : v ≠ []) :
    pyStrip (lstripDashSpace (c :: t ++ v)) = c :: t ++ v := by
  rw [List.cons_append, lstripDashSpace_cons hc1, ← List.cons_append]
  exact pyStrip_cons_append hc2 hv h0

/-- A stored line whose label lowers to a different first character than
the probed label is never matched by `_get_value`'s scan. -/
theorem getValueHit_stored_false {lab : Line} {a : Char} {p' : Line} {c : Char} {t v : Line}
    (hlab : lowerL lab ++ [':'] = a :: p')
    (hc1 : (decide (c = '-') || decide (c = ' ')) = false) (hc2 : isPySpace c = false)
    (hne : a ≠ c.toLower) (hv : trimRight v = v) (h0 : v ≠ []) :
    getValueHit lab (c :: t ++ v) = false := by
  rw [getValueHit, stored_norm hc1 hc2 hv h0, hlab]
  rw [show lowerL (c :: t ++ v) = c.toLower :: lowerL (t ++ v) from rfl]
  exact startsWithB_false_head hne _ _

/-- Cross-label skip: probing label `lab` never matches the stored line
`labS ++ ": " ++ v` of a different label whose lowered first characters
differ, for any right-stable value `v` (including the empty value). -/
theorem getValueHit_cross {lab labS : Line} {a : Char} {p' : Line} {c : Char} {t : Line}
    (hlabS : labS = c :: t)
    (hlab : lowerL lab ++ [':'] = a :: p')
    (hc1 : (decide (c = '-') || decide (c = ' ')) = false) (hc2 : isPySpace c = false)
    (hne : a ≠ c.toLower)
    (hempty : getValueHit lab (labS ++ strA ": ") = false) :
    ∀ v : Line, trimRight v = v → getValueHit lab (labS ++ (strA ": " ++ v)) = false := by
  intro v hv
  by_cases h0 : v = []
  · subst h0
    rw [show strA ": " ++ ([] : Line) = strA ": " from by simp]
    exact hempty
  · rw [hlabS, show (c :: t) ++ (strA ": " ++ v) = c :: (t ++ strA ": ") ++ v from by simp]
    exact getValueHit_stored_false hlab hc1 hc2 hne hv h0

/-- Hit-and-parse: probing label `lab` always matches its own stored line
`lab ++ ": " ++ v` and recovers exactly `v`, for any strip-stable `v`
(including the empty value). -/
theorem getValueHit_parse_self {lab : Line} {c : Char} {t : Line}
    (hlabC : lab = c :: t)
    (hc1 : (decide (c = '-') || decide (c = ' ')) = false) (hc2 : isPySpace c = false)
    (hnc : ∀ x ∈ lab, x ≠ ':')
    (hemp1 : getValueHit lab (lab ++ strA ": ") = true)
    (hemp2 : pyStrip (afterFirstColon (pyStrip (lstripDashSpace (lab ++ strA ": ")))) = []) :
    ∀ v : Line, pyStrip v = v →
      getValueHit lab (lab ++ (strA ": " ++ v)) = true ∧
      pyStrip (afterFirstColon (pyStrip (lstripDashSpace (lab ++ (strA ": " ++ v))))) = v := by
  intro v hv
  by_cases h0 : v = []
  · subst h0
    rw [show strA ": " ++ ([] : Line) = strA ": " from by simp]
    exact ⟨hemp1, hemp2⟩
  · have hvr : trimRight v = v := trimRight_of_pyStrip_stable hv
    have hshape : lab ++ (strA ": " ++ v) = c :: (t ++ strA ": ") ++ v := by
      rw [hlabC]; simp
    have hnorm : pyStrip (lstripDashSpace (lab ++ (strA ": " ++ v))) =
        lab ++ (strA ": " ++ v) := by
      rw [hshape, stored_norm hc1 hc2 hvr h0]
    constructor
    · rw [getValueHit, hnorm]
      rw [show lowerL (lab ++ (strA ": " ++ v)) =
        (lowerL lab ++ [':']) ++ (' ' :: lowerL v) from by
          simp only [lowerL, List.map_append, List.append_assoc]
          rfl]
      exact startsWithB_append_self _ _
    · rw [hnorm]
      rw [show lab ++ (strA ": " ++ v) = lab ++ ':' :: (' ' :: v) from by simp [strA]]
      rw [afterFirstColon_concat lab hnc]
      rw [pyStrip_cons_space (by decide) v, hv]

-- -----------------------------
-- Scanning section_out (C9)
-- -----------------------------

theorem getValueGo_cons_hit {label ln : Line} (h : getValueHit label ln = true)
    (rest : List Line) :
    getValueGo label (ln :: rest) =
      pyStrip (afterFirstColon (pyStrip (lstripDashSpace ln))) := by
  rw [getValueGo, if_pos h]

theorem getValueGo_cons_skip {label ln : Line} (h : getValueHit label ln = false)
    (rest : List Line) :
    getValueGo label (ln :: rest) = getValueGo label rest := by
  rw [getValueGo, if_neg (by simp [h])]

theorem getValueGo_append_skip {label : Line} :
    ∀ {xs : List Line}, (∀ ln ∈ xs, getValueHit label ln = false) →
      ∀ ys : List Line, getValueGo label (xs ++ ys) = getValueGo label ys := by
  intro xs
  induction xs with
  | nil => intro _ ys; rw [List.nil_append]
  | cons ln rest ih =>
      intro h ys
      rw [List.cons_append, getValueGo_cons_skip (h ln (List.mem_cons_self _ _))]
      exact ih (fun x hx => h x (List.mem_cons_of_mem _ hx)) ys

theorem nameScan_eq_getValueGo : ∀ l : List Line, nameScan l = getValueGo (strA "Name") l := by
  intro l
  induction l with
  | nil => rfl
  | cons ln rest ih =>
      rw [nameScan, getValueGo, getValueHit]
      rw [show lowerL (strA "Name") ++ [':'] = strA "name:" from rfl]
      by_cases h : startsWithB (strA "name:") (lowerL (pyStrip (lstripDashSpace ln))) = true
      · rw [if_pos h, if_pos h]
      · rw [if_neg h, if_neg h]
        exact ih

-- -----------------------------
-- Looking a section up in the extraction result (C9)
-- -----------------------------

theorem lookup_extractRFGo_not_mem {lines : List Line} {K : Line} :
    ∀ {hs : List Line}, K ∉ hs → lookupAssoc (extractRFGo lines hs) K = none := by
  intro hs
  induction hs with
  | nil => intro _; rfl
  | cons h rest ih =>
      intro hK
      have hne : h ≠ K := fun he => hK (he ▸ List.mem_cons_self _ _)
      have hKr : K ∉ rest := fun hm => hK (List.mem_cons_of_mem _ hm)
      rw [extractRFGo]
      cases hsl : sectionLinesOpt lines h with
      | none => exact ih hKr
      | some sl =>
          simp only
          by_cases hso : buildSectionOut h sl = []
          · rw [if_pos hso]
            exact ih hKr
          · rw [if_neg hso, lookupAssoc, if_neg hne]
            exact ih hKr

theorem lookup_extractRFGo_skip {lines : List Line} {K h : Line} (hne : h ≠ K)
    (hs : List Line) :
    lookupAssoc (extractRFGo lines (h :: hs)) K = lookupAssoc (extractRFGo lines hs) K := by
  rw [extractRFGo]
  cases hsl : sectionLinesOpt lines h with
  | none => rfl
  | some sl =>
      simp only
      by_cases hso : buildSectionOut h sl = []
      · rw [if_pos hso]
      · rw [if_neg hso, lookupAssoc, if_neg hne]

theorem lookup_extractRFGo_hit {lines : List Line} {K : Line} {hs : List Line} (hK : K ∉ hs) :
    lookupAssoc (extractRFGo lines (K :: hs)) K =
      (match sectionLinesOpt lines K with
       | none => none
       | some sl =>
           if buildSectionOut K sl = [] then none else some (buildSectionOut K sl)) := by
  rw [extractRFGo]
  cases hsl : sectionLinesOpt lines K with
  | none => exact lookup_extractRFGo_not_mem hK
  | some sl =>
      simp only
      by_cases hso : buildSectionOut K sl = []
      · rw [if_pos hso, if_pos hso]
        exact lookup_extractRFGo_not_mem hK
      · rw [if_neg hso, if_neg hso, lookupAssoc, if_pos rfl]

-- -----------------------------
-- Spec-side reference values for C9
-- -----------------------------

/-- The value the extractor itself found for `label` in `header`'s
section, or the empty string when the section or the value is absent. -/
def valueFor (lines : List Line) (header label : Line) : Line :=
  match sectionLinesOpt lines header with
  | none => []
  | some sl => (extract_value_after_colon sl label).getD []

/-- The name the bare-name heuristic itself found in the
`Anschlussnehmer` section, or the empty string. -/
def nameFor (lines : List Line) : Line :=
  match sectionLinesOpt lines (strA "Anschlussnehmer") with
  | none => []
  | some sl => (extract_first_person_name sl).getD []

/-- Round trip through a section holding a single target label. -/
theorem getValue_single_section (lines : List Line) (H lab : Line)
    (hlk : lookupAssoc (extract_requested_fields lines) H =
      (match sectionLinesOpt lines H with
       | none => none
       | some sl =>
           if buildSectionOut H sl = [] then none else some (buildSectionOut H sl)))
    (hbuild : ∀ sl, buildSectionOut H sl =
      (match extract_value_after_colon sl lab with
       | some v => [lab ++ (strA ": " ++ v)]
       | none => []))
    (hhit : ∀ v : Line, pyStrip v = v →
      getValueHit lab (lab ++ (strA ": " ++ v)) = true ∧
      pyStrip (afterFirstColon (pyStrip (lstripDashSpace (lab ++ (strA ": " ++ v))))) = v) :
    get_value (extract_requested_fields lines) H lab = valueFor lines H lab := by
  rw [get_value, dictGetD, hlk, valueFor]
  cases hsl : sectionLinesOpt lines H with
  | none => rfl
  | some sl =>
      simp only
      rw [hbuild sl]
      cases hv : extract_value_after_colon sl lab with
      | none =>
          simp [getValueGo]
      | some v =>
          simp only
          rw [if_neg (by simp), Option.getD_some, Option.getD_some]
          obtain ⟨hh, hp⟩ := hhit v (evac_stable hv)
          rw [getValueGo_cons_hit hh, hp]

theorem getValue_anschlussort (lines : List Line) :
    get_value (extract_requested_fields lines) (strA "Anschlussort") (strA "Straße") =
      valueFor lines (strA "Anschlussort") (strA "Straße") := by
  refine getValue_single_section lines _ _ ?_ ?_ ?_
  · rw [extract_requested_fields,
      show HEADERS = strA "Stellvertreter" :: strA "Anschlussnehmer" :: strA "Anschlussort" ::
        strA "Angaben zur Kundenanlage" :: strA "Angaben zu den PV-Modulen" ::
        strA "Angaben zur Speichereinheit" :: [] from rfl,
      lookup_extractRFGo_skip (by decide), lookup_extractRFGo_skip (by decide),
      lookup_extractRFGo_hit (by decide)]
  · intro sl
    rw [show buildSectionOut (strA "Anschlussort") sl =
      (match extract_value_after_colon sl (strA "Straße") with
       | some v => [strA "Straße" ++ (strA ": " ++ v)]
       | none => []) ++ [] from rfl, List.append_nil]
  · exact getValueHit_parse_self rfl (by decide) (by decide) (by decide) (by decide) (by decide)

theorem getValue_kundenanlage (lines : List Line) :
    get_value (extract_requested_fields lines) (strA "Angaben zur Kundenanlage")
        (strA "Mess- und Betriebskonzept") =
      valueFor lines (strA "Angaben zur Kundenanlage") (strA "Mess- und Betriebskonzept") := by
  refine getValue_single_section lines _ _ ?_ ?_ ?_
  · rw [extract_requested_fields,
      show HEADERS = strA "Stellvertreter" :: strA "Anschlussnehmer" :: strA "Anschlussort" ::
        strA "Angaben zur Kundenanlage" :: strA "Angaben zu den PV-Modulen" ::
        strA "Angaben zur Speichereinheit" :: [] from rfl,
      lookup_extractRFGo_skip (by decide), lookup_extractRFGo_skip (by decide),
      lookup_extractRFGo_skip (by decide), lookup_extractRFGo_hit (by decide)]
  · intro sl
    rw [show buildSectionOut (strA "Angaben zur Kundenanlage") sl =
      (match extract_value_after_colon sl (strA "Mess- und Betriebskonzept") with
       | some v => [strA "Mess- und Betriebskonzept" ++ (strA ": " ++ v)]
       | none => []) ++ [] from rfl, List.append_nil]
  · exact getValueHit_parse_self rfl (by decide) (by decide) (by decide) (by decide) (by decide)

theorem getValue_pv (lines : List Line) :
    get_value (extract_requested_fields lines) (strA "Angaben zu den PV-Modulen")
        (strA "Gesamtleistung aller PV-Module in kWp") =
      valueFor lines (strA "Angaben zu den PV-Modulen")
        (strA "Gesamtleistung aller PV-Module in kWp") := by
  refine getValue_single_section lines _ _ ?_ ?_ ?_
  · rw [extract_requested_fields,
      show HEADERS = strA "Stellvertreter" :: strA "Anschlussnehmer" :: strA "Anschlussort" ::
        strA "Angaben zur Kundenanlage" :: strA "Angaben zu den PV-Modulen" ::
        strA "Angaben zur Speichereinheit" :: [] from rfl,
      lookup_extractRFGo_skip (by decide), lookup_extractRFGo_skip (by decide),
      lookup_extractRFGo_skip (by decide), lookup_extractRFGo_skip (by decide),
      lookup_extractRFGo_hit (by decide)]
  · intro sl
    rw [show buildSectionOut (strA "Angaben zu den PV-Modulen") sl =
      (match extract_value_after_colon sl (strA "Gesamtleistung aller PV-Module in kWp") with
       | some v => [strA "Gesamtleistung aller PV-Module in kWp" ++ (strA ": " ++ v)]
       | none => []) ++ [] from rfl, List.append_nil]
  · exact getValueHit_parse_self rfl (by decide) (by decide) (by decide) (by decide) (by decide)

theorem getValue_speicher (lines : List Line) :
    get_value (extract_requested_fields lines) (strA "Angaben zur Speichereinheit")
        (strA "Bruttokapazität des Speichereinheit") =
      valueFor lines (strA "Angaben zur Speichereinheit")
        (strA "Bruttokapazität des Speichereinheit") := by
  refine getValue_single_section lines _ _ ?_ ?_ ?_
  · rw [extract_requested_fields,
      show HEADERS = strA "Stellvertreter" :: strA "Anschlussnehmer" :: strA "Anschlussort" ::
        strA "Angaben zur Kundenanlage" :: strA "Angaben zu den PV-Modulen" ::
        strA "Angaben zur Speichereinheit" :: [] from rfl,
      lookup_extractRFGo_skip (by decide), lookup_extractRFGo_skip (by decide),
      lookup_extractRFGo_skip (by decide), lookup_extractRFGo_skip (by decide),
      lookup_extractRFGo_skip (by decide), lookup_extractRFGo_hit (by decide)]
  · intro sl
    rw [show buildSectionOut (strA "Angaben zur Speichereinheit") sl =
      (match extract_value_after_colon sl (strA "Bruttokapazität des Speichereinheit") with
       | some v => [strA "Bruttokapazität des Speichereinheit" ++ (strA ": " ++ v)]
       | none => []) ++ [] from rfl, List.append_nil]
  · exact getValueHit_parse_self rfl (by decide) (by decide) (by decide) (by decide) (by decide)

-- -----------------------------
-- The Anschlussnehmer section (C9): name, Anschrift, Telefon
-- -----------------------------

theorem lookup_rf_an (lines : List Line) :
    lookupAssoc (extract_requested_fields lines) (strA "Anschlussnehmer") =
      (match sectionLinesOpt lines (strA "Anschlussnehmer") with
       | none => none
       | some sl =>
           if buildSectionOut (strA "Anschlussnehmer") sl = [] then none
           else some (buildSectionOut (strA "Anschlussnehmer") sl)) := by
  rw [extract_requested_fields,
    show HEADERS = strA "Stellvertreter" :: strA "Anschlussnehmer" :: strA "Anschlussort" ::
      strA "Angaben zur Kundenanlage" :: strA "Angaben zu den PV-Modulen" ::
      strA "Angaben zur Speichereinheit" :: [] from rfl,
    lookup_extractRFGo_skip (by decide), lookup_extractRFGo_hit (by decide)]

theorem buildSectionOut_an (sl : List Line) :
    buildSectionOut (strA "Anschlussnehmer") sl =
      (match extract_first_person_name sl with
       | some n => if n = [] then [] else [strA "Name: " ++ n]
       | none => []) ++
      ((match extract_value_after_colon sl (strA "Anschrift") with
        | some v => [strA "Anschrift" ++ (strA ": " ++ v)]
        | none => []) ++
       ((match extract_value_after_colon sl (strA "Erreichbarkeit Telefon") with
         | some u => [strA "Erreichbarkeit Telefon" ++ (strA ": " ++ u)]
         | none => []) ++ [])) := rfl

theorem getValueGo_optList (label : Line) (L : List Line) :
    getValueGo label ((if L = [] then none else some L).getD ([] : List Line)) =
      getValueGo label L := by
  by_cases h : L = []
  · rw [if_pos h, h]
    rfl
  · rw [if_neg h, Option.getD_some]

theorem skipName_anschrift {n : Line} (hn : trimRight n = n) (h0 : n ≠ []) :
    getValueHit (strA "Anschrift") (strA "Name: " ++ n) = false := by
  rw [show strA "Name: " ++ n = 'N' :: strA "ame: " ++ n from rfl]
  exact getValueHit_stored_false
    (rfl : lowerL (strA "Anschrift") ++ [':'] = 'a' :: strA "nschrift:")
    (by decide) (by decide) (by decide) hn h0

theorem getValue_anschrift (lines : List Line) :
    get_value (extract_requested_fields lines) (strA "Anschlussnehmer") (strA "Anschrift") =
      valueFor lines (strA "Anschlussnehmer") (strA "Anschrift") := by
  rw [get_value, dictGetD, lookup_rf_an lines, valueFor]
  cases hsl : sectionLinesOpt lines (strA "Anschlussnehmer") with
  | none => rfl
  | some sl =>
      simp only
      rw [getValueGo_optList, buildSectionOut_an sl]
      cases hav : extract_value_after_colon sl (strA "Anschrift") with
      | some v =>
          obtain ⟨hh, hp⟩ := getValueHit_parse_self
            (rfl : strA "Anschrift" = 'A' :: strA "nschrift")
            (by decide) (by decide) (by decide) (by decide) (by decide) v (evac_stable hav)
          cases hnm : extract_first_person_name sl with
          | none =>
              simp only [List.nil_append, List.singleton_append]
              rw [getValueGo_cons_hit hh, hp]
              rfl
          | some n =>
              by_cases hn0 : n = []
              · subst hn0
                simp only [List.nil_append, List.singleton_append, eq_self_iff_true, if_true]
                rw [getValueGo_cons_hit hh, hp]
                rfl
              · have hns := skipName_anschrift (trimRight_of_pyStrip_stable (efpn_stable hnm)) hn0
                simp only []
                rw [if_neg hn0]
                simp only [List.singleton_append]
                rw [getValueGo_cons_skip hns, getValueGo_cons_hit hh, hp]
                rfl
      | none =>
          cases htv : extract_value_after_colon sl (strA "Erreichbarkeit Telefon") with
          | some u =>
              have hus : getValueHit (strA "Anschrift")
                  (strA "Erreichbarkeit Telefon" ++ (strA ": " ++ u)) = false :=
                getValueHit_cross
                  (rfl : strA "Erreichbarkeit Telefon" = 'E' :: strA "rreichbarkeit Telefon")
                  (rfl : lowerL (strA "Anschrift") ++ [':'] = 'a' :: strA "nschrift:")
                  (by decide) (by decide) (by decide) (by decide) u
                  (trimRight_of_pyStrip_stable (evac_stable htv))
              cases hnm : extract_first_person_name sl with
              | none =>
                  simp only [List.nil_append, List.append_nil, List.singleton_append]
                  rw [getValueGo_cons_skip hus]
                  rfl
              | some n =>
                  by_cases hn0 : n = []
                  · subst hn0
                    simp only [List.nil_append, List.append_nil, List.singleton_append,
                      eq_self_iff_true, if_true]
                    rw [getValueGo_cons_skip hus]
                    rfl
                  · have hns := skipName_anschrift
                      (trimRight_of_pyStrip_stable (efpn_stable hnm)) hn0
                    simp only []
                    rw [if_neg hn0]
                    simp only [List.nil_append, List.append_nil, List.singleton_append]
                    rw [getValueGo_cons_skip hns, getValueGo_cons_skip hus]
                    rfl
          | none =>
              cases hnm : extract_first_person_name sl with
              | none => rfl
              | some n =>
                  by_cases hn0 : n = []
                  · subst hn0
                    rfl
                  · have hns := skipName_anschrift
                      (trimRight_of_pyStrip_stable (efpn_stable hnm)) hn0
                    simp only []
                    rw [if_neg hn0]
                    simp only [List.nil_append, List.append_nil, List.singleton_append]
                    rw [getValueGo_cons_skip hns]
                    rfl

theorem skipName_tel {n : Line} (hn : trimRight n = n) (h0 : n ≠ []) :
    getValueHit (strA "Erreichbarkeit Telefon") (strA "Name: " ++ n) = false := by
  rw [show strA "Name: " ++ n = 'N' :: strA "ame: " ++ n from rfl]
  exact getValueHit_stored_false
    (rfl : lowerL (strA "Erreichbarkeit Telefon") ++ [':'] =
      'e' :: strA "rreichbarkeit telefon:")
    (by decide) (by decide) (by decide) hn h0

theorem skipAnschrift_tel {v : Line} (hv : trimRight v = v) :
    getValueHit (strA "Erreichbarkeit Telefon") (strA "Anschrift" ++ (strA ": " ++ v)) = false :=
  getValueHit_cross (rfl : strA "Anschrift" = 'A' :: strA "nschrift")
    (rfl : lowerL (strA "Erreichbarkeit Telefon") ++ [':'] =
      'e' :: strA "rreichbarkeit telefon:")
    (by decide) (by decide) (by decide) (by decide) v hv

theorem getValue_telefon (lines : List Line) :
    get_value (extract_requested_fields lines) (strA "Anschlussnehmer")
        (strA "Erreichbarkeit Telefon") =
      valueFor lines (strA "Anschlussnehmer") (strA "Erreichbarkeit Telefon") := by
  rw [get_value, dictGetD, lookup_rf_an lines, valueFor]
  cases hsl : sectionLinesOpt lines (strA "Anschlussnehmer") with
  | none => rfl
  | some sl =>
      simp only
      rw [getValueGo_optList, buildSectionOut_an sl]
      cases htv : extract_value_after_colon sl (strA "Erreichbarkeit Telefon") with
      | some u =>
          obtain ⟨hh, hp⟩ := getValueHit_parse_self
            (rfl : strA "Erreichbarkeit Telefon" = 'E' :: strA "rreichbarkeit Telefon")
            (by decide) (by decide) (by decide) (by decide) (by decide) u (evac_stable htv)
          cases hav : extract_value_after_colon sl (strA "Anschrift") with
          | some v =>
              have hva := skipAnschrift_tel (trimRight_of_pyStrip_stable (evac_stable hav))
              cases hnm : extract_first_person_name sl with
              | none =>
                  simp only [List.nil_append, List.singleton_append]
                  rw [getValueGo_cons_skip hva, getValueGo_cons_hit hh, hp]
                  rfl
              | some n =>
                  by_cases hn0 : n = []
                  · subst hn0
                    simp only [List.nil_append, List.singleton_append, eq_self_iff_true,
                      if_true]
                    rw [getValueGo_cons_skip hva, getValueGo_cons_hit hh, hp]
                    rfl
                  · have hns := skipName_tel (trimRight_of_pyStrip_stable (efpn_stable hnm)) hn0
                    simp only []
                    rw [if_neg hn0]
                    simp only [List.singleton_append]
                    rw [getValueGo_cons_skip hns, getValueGo_cons_skip hva,
                      getValueGo_cons_hit hh, hp]
                    rfl
          | none =>
              cases hnm : extract_first_person_name sl with
              | none =>
                  simp only [List.nil_append, List.singleton_append]
                  rw [getValueGo_cons_hit hh, hp]
                  rfl
              | some n =>
                  by_cases hn0 : n = []
                  · subst hn0
                    simp only [List.nil_append, List.singleton_append, eq_self_iff_true,
                      if_true]
                    rw [getValueGo_cons_hit hh, hp]
                    rfl
                  · have hns := skipName_tel (trimRight_of_pyStrip_stable (efpn_stable hnm)) hn0
                    simp only []
                    rw [if_neg hn0]
                    simp only [List.nil_append, List.singleton_append]
                    rw [getValueGo_cons_skip hns, getValueGo_cons_hit hh, hp]
                    rfl
      | none =>
          cases hav : extract_value_after_colon sl (strA "Anschrift") with
          | some v =>
              have hva := skipAnschrift_tel (trimRight_of_pyStrip_stable (evac_stable hav))
              cases hnm : extract_first_person_name sl with
              | none =>
                  simp only [List.nil_append, List.append_nil, List.singleton_append]
                  rw [getValueGo_cons_skip hva]
                  rfl
              | some n =>
                  by_cases hn0 : n = []
                  · subst hn0
                    simp only [List.nil_append, List.append_nil, List.singleton_append,
                      eq_self_iff_true, if_true]
                    rw [getValueGo_cons_skip hva]
                    rfl
                  · have hns := skipName_tel (trimRight_of_pyStrip_stable (efpn_stable hnm)) hn0
                    simp only []
                    rw [if_neg hn0]
                    simp only [List.nil_append, List.append_nil, List.singleton_append]
                    rw [getValueGo_cons_skip hns, getValueGo_cons_skip hva]
                    rfl
          | none =>
              cases hnm : extract_first_person_name sl with
              | none => rfl
              | some n =>
                  by_cases hn0 : n = []
                  · subst hn0
                    rfl
                  · have hns := skipName_tel (trimRight_of_pyStrip_stable (efpn_stable hnm)) hn0
                    simp only []
                    rw [if_neg hn0]
                    simp only [List.nil_append, List.append_nil, List.singleton_append]
                    rw [getValueGo_cons_skip hns]
                    rfl

theorem skipAnschrift_name {v : Line} (hv : trimRight v = v) :
    getValueHit (strA "Name") (strA "Anschrift" ++ (strA ": " ++ v)) = false :=
  getValueHit_cross (rfl : strA "Anschrift" = 'A' :: strA "nschrift")
    (rfl : lowerL (strA "Name") ++ [':'] = 'n' :: strA "ame:")
    (by decide) (by decide) (by decide) (by decide) v hv

theorem skipTel_name {u : Line} (hu : trimRight u = u) :
    getValueHit (strA "Name")
      (strA "Erreichbarkeit Telefon" ++ (strA ": " ++ u)) = false :=
  getValueHit_cross (rfl : strA "Erreichbarkeit Telefon" = 'E' :: strA "rreichbarkeit Telefon")
    (rfl : lowerL (strA "Name") ++ [':'] = 'n' :: strA "ame:")
    (by decide) (by decide) (by decide) (by decide) u hu

theorem name_roundtrip (lines : List Line) :
    nameScan (dictGetD (extract_requested_fields lines) (strA "Anschlussnehmer") []) =
      nameFor lines := by
  rw [nameScan_eq_getValueGo, dictGetD, lookup_rf_an lines, nameFor]
  cases hsl : sectionLinesOpt lines (strA "Anschlussnehmer") with
  | none => rfl
  | some sl =>
      simp only
      rw [getValueGo_optList, buildSectionOut_an sl]
      cases hnm : extract_first_person_name sl with
      | some n =>
          by_cases hn0 : n = []
          · subst hn0
            simp only [eq_self_iff_true, if_true, List.nil_append]
            cases hav : extract_value_after_colon sl (strA "Anschrift") with
            | some v =>
                have hva := skipAnschrift_name (trimRight_of_pyStrip_stable (evac_stable hav))
                cases htv : extract_value_after_colon sl (strA "Erreichbarkeit Telefon") with
                | some u =>
                    have htu := skipTel_name (trimRight_of_pyStrip_stable (evac_stable htv))
                    simp only [List.append_nil, List.singleton_append]
                    rw [getValueGo_cons_skip hva, getValueGo_cons_skip htu]
                    rfl
                | none =>
                    simp only [List.append_nil, List.singleton_append]
                    rw [getValueGo_cons_skip hva]
                    rfl
            | none =>
                cases htv : extract_value_after_colon sl (strA "Erreichbarkeit Telefon") with
                | some u =>
                    have htu := skipTel_name (trimRight_of_pyStrip_stable (evac_stable htv))
                    simp only [List.nil_append, List.append_nil, List.singleton_append]
                    rw [getValueGo_cons_skip htu]
                    rfl
                | none => rfl
          · obtain ⟨hh, hp⟩ := getValueHit_parse_self
              (rfl : strA "Name" = 'N' :: strA "ame")
              (by decide) (by decide) (by decide) (by decide) (by decide) n (efpn_stable hnm)
            have hh' : getValueHit (strA "Name") (strA "Name: " ++ n) = true := by
              rw [show strA "Name: " ++ n = strA "Name" ++ (strA ": " ++ n) from rfl]
              exact hh
            have hp' : pyStrip (afterFirstColon (pyStrip (lstripDashSpace
                (strA "Name: " ++ n)))) = n := by
              rw [show strA "Name: " ++ n = strA "Name" ++ (strA ": " ++ n) from rfl]
              exact hp
            simp only []
            rw [if_neg hn0]
            simp only [List.singleton_append]
            rw [getValueGo_cons_hit hh', hp']
            rfl
      | none =>
          simp only [List.nil_append]
          cases hav : extract_value_after_colon sl (strA "Anschrift") with
          | some v =>
              have hva := skipAnschrift_name (trimRight_of_pyStrip_stable (evac_stable hav))
              cases htv : extract_value_after_colon sl (strA "Erreichbarkeit Telefon") with
              | some u =>
                  have htu := skipTel_name (trimRight_of_pyStrip_stable (evac_stable htv))
                  simp only [List.append_nil, List.singleton_append]
                  rw [getValueGo_cons_skip hva, getValueGo_cons_skip htu]
                  rfl
              | none =>
                  simp only [List.append_nil, List.singleton_append]
                  rw [getValueGo_cons_skip hva]
                  rfl
          | none =>
              cases htv : extract_value_after_colon sl (strA "Erreichbarkeit Telefon") with
              | some u =>
                  have htu := skipTel_name (trimRight_of_pyStrip_stable (evac_stable htv))
                  simp only [List.nil_append, List.append_nil, List.singleton_append]
                  rw [getValueGo_cons_skip htu]
                  rfl
              | none => rfl

/-- C9: for every line sequence, re-parsing the extraction result's own
formatted `"Label: Value"` lines recovers exactly the originally
extracted values: `build_extracted_dict` maps each of the seven canonical
keys to the very value the extractor found for the corresponding section
and label (`nameFor` / `valueFor`), and to the empty string when that
section or label is absent from the result. -/
theorem claim_C9_projection_roundtrip (lines : List Line) :
    build_extracted_dict (extract_requested_fields lines) =
      [(strA "name", nameFor lines),
       (strA "anschrift", valueFor lines (strA "Anschlussnehmer") (strA "Anschrift")),
       (strA "telefon",
         valueFor lines (strA "Anschlussnehmer") (strA "Erreichbarkeit Telefon")),
       (strA "anschlussort_strasse", valueFor lines (strA "Anschlussort") (strA "Straße")),
       (strA "messkonzept",
         valueFor lines (strA "Angaben zur Kundenanlage") (strA "Mess- und Betriebskonzept")),
       (strA "pv_kwp",
         valueFor lines (strA "Angaben zu den PV-Modulen")
           (strA "Gesamtleistung aller PV-Module in kWp")),
       (strA "speicher_kwh",
         valueFor lines (strA "Angaben zur Speichereinheit")
           (strA "Bruttokapazität des Speichereinheit"))] := by
  rw [build_extracted_dict, name_roundtrip lines, getValue_anschrift lines,
    getValue_telefon lines, getValue_anschlussort lines, getValue_kundenanlage lines,
    getValue_pv lines, getValue_speicher lines]

end PdfExtract
